import Mathlib

/-!
# IMU preintegration (`src/FullSystem/IMUPreintegrator.cpp`)

A shallow embedding of `dso::IMUPreintegrator` and of its three operations
(default constructor, `reset`, `update`) together with the properties stated
about them.

Modelling decisions.

* Scalars.  The source computes in `double`.  The first model, `update`, is the
  exact-arithmetic one: its scalar type is any linearly ordered field `K` (`ℚ`
  for evaluation, `ℝ` where `π` is needed) and nothing is rounded.
* Rounding.  The second model, `updateD`, is the same sequence of statements in
  binary64 arithmetic: a `double` is the rational number it denotes and every
  arithmetic operation of the source rounds once, to nearest, ties to even
  (`fl`).  Infinities, NaN, overflow and underflow are not modelled.  The order
  in which Eigen's product kernels add the terms of an inner product, and
  whether a multiplication and an addition are fused, are not fixed by the
  source: `dotD` adds from index 0 upwards and rounds after every operation.
  Where a counterexample below depends on rounding, its input is chosen where
  it can be so that every inner product has at most one nonzero term.
* `Vec3`, `Mat33`, `Mat93`, `Mat99` are the fixed-size Eigen types of the
  source.  Eigen's `M*c` and `c*M` for a scalar `c` are both the entrywise
  multiple `c • M`.
* `A.block<3,3>(r,c) = M` is `setBlock A r c M`.
* The rotation utilities `Expmap`, `JacobianR`, `skew`, `normalizeRotationM`
  and the noise constants `GyrCov`, `AccCov` are used by the source file but
  declared elsewhere; they are parameters (`SO3Lib`, `Settings`).
* A member function mutating `*this` is a function from the old object to the
  new one; every assignment statement is one record update, in source order.
-/

namespace dso

/-- Eigen `Vec3`. -/
abbrev Vec3 (K : Type) := Fin 3 → K
/-- Eigen `Mat33`. -/
abbrev Mat33 (K : Type) := Matrix (Fin 3) (Fin 3) K
/-- Eigen `Mat93`. -/
abbrev Mat93 (K : Type) := Matrix (Fin 9) (Fin 3) K
/-- Eigen `Mat99`. -/
abbrev Mat99 (K : Type) := Matrix (Fin 9) (Fin 9) K

/-- The data members of `class IMUPreintegrator`, in the order of the copy
constructor's initialiser list. -/
structure IMUPreintegrator (K : Type) where
  _delta_P : Vec3 K
  _delta_V : Vec3 K
  _delta_R : Mat33 K
  _J_P_Biasg : Mat33 K
  _J_P_Biasa : Mat33 K
  _J_V_Biasg : Mat33 K
  _J_V_Biasa : Mat33 K
  _J_R_Biasg : Mat33 K
  _cov_P_V_Phi : Mat99 K
  _delta_time : K

/-- The rotation utilities called by `update`; they are declared outside the
source file and enter as parameters. -/
structure SO3Lib (K : Type) where
  Expmap : Vec3 K → Mat33 K
  JacobianR : Vec3 K → Mat33 K
  skew : Vec3 K → Mat33 K
  normalizeRotationM : Mat33 K → Mat33 K

/-- The measurement-noise constants of `util/settings.h` read by `update`. -/
structure Settings (K : Type) where
  GyrCov : Mat33 K
  AccCov : Mat33 K

section Definitions

variable {K : Type} [LinearOrderedField K]

/-- The assignment `A.block<3,3>(r,c) = M` on a fixed-size matrix `A`. -/
def setBlock {m n : Nat} (A : Matrix (Fin m) (Fin n) K) (r c : Nat) (M : Mat33 K) :
    Matrix (Fin m) (Fin n) K :=
  Matrix.of fun i j =>
    if h : (r ≤ i.val ∧ i.val < r + 3) ∧ (c ≤ j.val ∧ j.val < c + 3) then
      M ⟨i.val - r, by omega⟩ ⟨j.val - c, by omega⟩
    else A i j

namespace IMUPreintegrator

/-- The copy constructor `IMUPreintegrator::IMUPreintegrator(const IMUPreintegrator& pre)`. -/
def copy (pre : IMUPreintegrator K) : IMUPreintegrator K where
  _delta_P := pre._delta_P
  _delta_V := pre._delta_V
  _delta_R := pre._delta_R
  _J_P_Biasg := pre._J_P_Biasg
  _J_P_Biasa := pre._J_P_Biasa
  _J_V_Biasg := pre._J_V_Biasg
  _J_V_Biasa := pre._J_V_Biasa
  _J_R_Biasg := pre._J_R_Biasg
  _cov_P_V_Phi := pre._cov_P_V_Phi
  _delta_time := pre._delta_time

/-- The default constructor `IMUPreintegrator::IMUPreintegrator()` (the name
of the class itself is taken by the structure).  The argument `raw` stands for
the not yet initialised members. -/
def construct (raw : IMUPreintegrator K) : IMUPreintegrator K :=
  let s := raw
  let s := { s with _delta_P := 0 }
  let s := { s with _delta_V := 0 }
  let s := { s with _delta_R := 1 }
  let s := { s with _J_P_Biasg := 0 }
  let s := { s with _J_P_Biasa := 0 }
  let s := { s with _J_V_Biasg := 0 }
  let s := { s with _J_V_Biasa := 0 }
  let s := { s with _J_R_Biasg := 0 }
  let s := { s with _cov_P_V_Phi := 0 }
  let s := { s with _delta_time := 0 }
  s

/-- The member function `IMUPreintegrator::reset`. -/
def reset (s : IMUPreintegrator K) : IMUPreintegrator K :=
  let s := { s with _delta_P := 0 }
  let s := { s with _delta_V := 0 }
  let s := { s with _delta_R := 1 }
  let s := { s with _J_P_Biasg := 0 }
  let s := { s with _J_P_Biasa := 0 }
  let s := { s with _J_V_Biasg := 0 }
  let s := { s with _J_V_Biasa := 0 }
  let s := { s with _J_R_Biasg := 0 }
  let s := { s with _cov_P_V_Phi := 0 }
  let s := { s with _delta_time := 0 }
  s

/-- The member function `IMUPreintegrator::update(omega, acc, dt)` (the
logging statements write nothing to the object and are left out). -/
def update (L : SO3Lib K) (cfg : Settings K) (s : IMUPreintegrator K)
    (omega acc : Vec3 K) (dt : K) : IMUPreintegrator K :=
  let dt2 : K := dt * dt
  let dR : Mat33 K := L.Expmap (dt • omega)
  let Jr : Mat33 K := L.JacobianR (dt • omega)
  -- noise covariance propagation of delta measurements
  let I3x3 : Mat33 K := 1
  let A : Mat99 K := 1
  let A := setBlock A 6 6 dR.transpose
  let A := setBlock A 3 6 (dt • (-s._delta_R * L.skew acc))
  let A := setBlock A 0 6 (dt2 • ((-0.5 : K) • s._delta_R * L.skew acc))
  let A := setBlock A 0 3 (dt • I3x3)
  let Bg : Mat93 K := 0
  let Bg := setBlock Bg 6 0 (dt • Jr)
  let Ca : Mat93 K := 0
  let Ca := setBlock Ca 3 0 (dt • s._delta_R)
  let Ca := setBlock Ca 0 0 (dt2 • ((0.5 : K) • s._delta_R))
  let s := { s with _cov_P_V_Phi :=
    A * s._cov_P_V_Phi * A.transpose + Bg * cfg.GyrCov * Bg.transpose
      + Ca * cfg.AccCov * Ca.transpose }
  -- jacobian of delta measurements w.r.t bias of gyro/acc
  let s := { s with _J_P_Biasa :=
    s._J_P_Biasa + (dt • s._J_V_Biasa - dt2 • ((0.5 : K) • s._delta_R)) }
  let s := { s with _J_P_Biasg :=
    s._J_P_Biasg
      + (dt • s._J_V_Biasg - dt2 • ((0.5 : K) • s._delta_R * L.skew acc * s._J_R_Biasg)) }
  let s := { s with _J_V_Biasa := s._J_V_Biasa + dt • (-s._delta_R) }
  let s := { s with _J_V_Biasg :=
    s._J_V_Biasg + dt • (-s._delta_R * L.skew acc * s._J_R_Biasg) }
  let s := { s with _J_R_Biasg := dR.transpose * s._J_R_Biasg - dt • Jr }
  -- delta measurements, position/velocity/rotation(matrix)
  let s := { s with _delta_P :=
    s._delta_P + (dt • s._delta_V + dt2 • (((0.5 : K) • s._delta_R).mulVec acc)) }
  let s := { s with _delta_V := s._delta_V + dt • (s._delta_R.mulVec acc) }
  let s := { s with _delta_R := L.normalizeRotationM (s._delta_R * dR) }
  -- delta time
  let s := { s with _delta_time := s._delta_time + dt }
  s

/-- One IMU sample handed to `update`: `(omega, acc, dt)`. -/
abbrev Sample (K : Type) := Vec3 K × Vec3 K × K

/-- A chronological sequence of `update` calls on one object. -/
def updates (L : SO3Lib K) (cfg : Settings K) (s : IMUPreintegrator K) :
    List (Sample K) → IMUPreintegrator K
  | [] => s
  | u :: us => updates L cfg (update L cfg s u.1 u.2.1 u.2.2) us

end IMUPreintegrator

end Definitions

section Binary64

/-- The value `⌊log₂ n⌋` for `n ≥ 1` (and `0` for `n = 0`), by halving; the
first argument bounds the number of halvings. -/
def ilog2 : Nat → Nat → Nat
  | 0, _ => 0
  | fuel + 1, n => if n < 2 then 0 else ilog2 fuel (n / 2) + 1

/-- The power `2^k` for an integer exponent. -/
def pow2 (k : ℤ) : ℚ :=
  if 0 ≤ k then ((2 ^ k.toNat : ℕ) : ℚ) else 1 / ((2 ^ (-k).toNat : ℕ) : ℚ)

/-- The integer nearest to `q`, ties to the even one. -/
def roundEven (q : ℚ) : ℤ :=
  let f : ℤ := q.num / (q.den : ℤ)
  let r : ℚ := q - f
  if r < 1 / 2 then f else if 1 / 2 < r then f + 1 else if f % 2 = 0 then f else f + 1

/-- The binary exponent `e` of `x ≠ 0`: `2^e ≤ |x| < 2^(e+1)`. -/
def expo (x : ℚ) : ℤ :=
  let e0 : ℤ := (ilog2 x.num.natAbs x.num.natAbs : ℤ) - (ilog2 x.den x.den : ℤ)
  if pow2 e0 ≤ |x| then e0 else e0 - 1

/-- Rounding to the nearest binary64 number (53-bit significand), ties to even;
the result of one `double` operation whose exact result is `x`. -/
def fl (x : ℚ) : ℚ :=
  if x = 0 then 0 else (roundEven (x / pow2 (expo x - 52)) : ℚ) * pow2 (expo x - 52)

/-- Eigen `M*c` (and `c*M`) for a scalar `c`, in binary64. -/
def smulD {m n : Type} (c : ℚ) (M : Matrix m n ℚ) : Matrix m n ℚ :=
  Matrix.of fun i j => fl (M i j * c)

/-- Eigen `v*c` for a vector `v` and a scalar `c`, in binary64. -/
def vsmulD (c : ℚ) (v : Vec3 ℚ) : Vec3 ℚ := fun i => fl (v i * c)

/-- Eigen `A + B`, in binary64. -/
def addD {m n : Type} (A B : Matrix m n ℚ) : Matrix m n ℚ :=
  Matrix.of fun i j => fl (A i j + B i j)

/-- Eigen `A - B`, in binary64. -/
def subD {m n : Type} (A B : Matrix m n ℚ) : Matrix m n ℚ :=
  Matrix.of fun i j => fl (A i j - B i j)

/-- Eigen `u + v` for vectors, in binary64. -/
def vaddD (u v : Vec3 ℚ) : Vec3 ℚ := fun i => fl (u i + v i)

/-- An inner product in binary64, the terms added from index 0 upwards. -/
def dotD {n : Nat} (u v : Fin n → ℚ) : ℚ :=
  (List.finRange n).foldl (fun acc k => fl (acc + fl (u k * v k))) 0

/-- Eigen `A*B` for matrices, in binary64. -/
def mulD {l m n : Nat} (A : Matrix (Fin l) (Fin m) ℚ) (B : Matrix (Fin m) (Fin n) ℚ) :
    Matrix (Fin l) (Fin n) ℚ :=
  Matrix.of fun i j => dotD (fun k => A i k) (fun k => B k j)

/-- Eigen `A*v` for a matrix and a vector, in binary64. -/
def mulVecD {m n : Nat} (A : Matrix (Fin m) (Fin n) ℚ) (v : Fin n → ℚ) : Fin m → ℚ :=
  fun i => dotD (fun k => A i k) v

namespace IMUPreintegrator

/-- The member function `IMUPreintegrator::update(omega, acc, dt)` in binary64
arithmetic: the statements of `update`, every arithmetic operation rounded. -/
def updateD (L : SO3Lib ℚ) (cfg : Settings ℚ) (s : IMUPreintegrator ℚ)
    (omega acc : Vec3 ℚ) (dt : ℚ) : IMUPreintegrator ℚ :=
  let dt2 : ℚ := fl (dt * dt)
  let dR : Mat33 ℚ := L.Expmap (vsmulD dt omega)
  let Jr : Mat33 ℚ := L.JacobianR (vsmulD dt omega)
  -- noise covariance propagation of delta measurements
  let I3x3 : Mat33 ℚ := 1
  let A : Mat99 ℚ := 1
  let A := setBlock A 6 6 dR.transpose
  let A := setBlock A 3 6 (smulD dt (mulD (-s._delta_R) (L.skew acc)))
  let A := setBlock A 0 6 (smulD dt2 (mulD (smulD (-0.5) s._delta_R) (L.skew acc)))
  let A := setBlock A 0 3 (smulD dt I3x3)
  let Bg : Mat93 ℚ := 0
  let Bg := setBlock Bg 6 0 (smulD dt Jr)
  let Ca : Mat93 ℚ := 0
  let Ca := setBlock Ca 3 0 (smulD dt s._delta_R)
  let Ca := setBlock Ca 0 0 (smulD dt2 (smulD 0.5 s._delta_R))
  let s := { s with _cov_P_V_Phi := addD (addD (mulD (mulD A s._cov_P_V_Phi) A.transpose)
      (mulD (mulD Bg cfg.GyrCov) Bg.transpose)) (mulD (mulD Ca cfg.AccCov) Ca.transpose) }
  -- jacobian of delta measurements w.r.t bias of gyro/acc
  let s := { s with _J_P_Biasa := addD s._J_P_Biasa (subD (smulD dt s._J_V_Biasa)
      (smulD dt2 (smulD 0.5 s._delta_R))) }
  let s := { s with _J_P_Biasg := addD s._J_P_Biasg (subD (smulD dt s._J_V_Biasg)
      (smulD dt2 (mulD (mulD (smulD 0.5 s._delta_R) (L.skew acc)) s._J_R_Biasg))) }
  let s := { s with _J_V_Biasa := addD s._J_V_Biasa (smulD dt (-s._delta_R)) }
  let s := { s with _J_V_Biasg := addD s._J_V_Biasg (smulD dt
      (mulD (mulD (-s._delta_R) (L.skew acc)) s._J_R_Biasg)) }
  let s := { s with _J_R_Biasg := subD (mulD dR.transpose s._J_R_Biasg) (smulD dt Jr) }
  -- delta measurements, position/velocity/rotation(matrix)
  let s := { s with _delta_P := vaddD s._delta_P (vaddD (vsmulD dt s._delta_V)
      (vsmulD dt2 (mulVecD (smulD 0.5 s._delta_R) acc))) }
  let s := { s with _delta_V := vaddD s._delta_V (vsmulD dt (mulVecD s._delta_R acc)) }
  let s := { s with _delta_R := L.normalizeRotationM (mulD s._delta_R dR) }
  -- delta time
  let s := { s with _delta_time := fl (s._delta_time + dt) }
  s

/-- A chronological sequence of `update` calls on one object, in binary64. -/
def updatesD (L : SO3Lib ℚ) (cfg : Settings ℚ) (s : IMUPreintegrator ℚ) :
    List (Sample ℚ) → IMUPreintegrator ℚ
  | [] => s
  | u :: us => updatesD L cfg (updateD L cfg s u.1 u.2.1 u.2.2) us

end IMUPreintegrator

end Binary64

section Specification

variable {K : Type} [LinearOrderedField K]

/-- The 9×9 matrix written as a 3×3 grid of 3×3 blocks: its block at rows
`3a..3a+2`, columns `3b..3b+2` is `B a b`. -/
def ofBlocks99 (B : Fin 3 → Fin 3 → Mat33 K) : Mat99 K :=
  Matrix.of fun i j =>
    B ⟨i.val / 3, by omega⟩ ⟨j.val / 3, by omega⟩ ⟨i.val % 3, by omega⟩ ⟨j.val % 3, by omega⟩

/-- The 9×3 matrix written as a column of three 3×3 blocks. -/
def ofBlocks93 (B : Fin 3 → Mat33 K) : Mat93 K :=
  Matrix.of fun i j => B ⟨i.val / 3, by omega⟩ ⟨i.val % 3, by omega⟩ j

/-- The error-transition matrix `A` as the specification describes it: the
identity with four blocks replaced (`R` is `deltaR`, `S` is `skew(a)`, `dR` is
`expMap(ω·Δt)`). -/
def specA (R S dR : Mat33 K) (dt : K) : Mat99 K :=
  ofBlocks99 ![![1, dt • (1 : Mat33 K), (-(1 / 2) * dt ^ 2) • (R * S)],
               ![0, 1,                  (-dt) • (R * S)],
               ![0, 0,                  dR.transpose]]

/-- The gyro-noise input matrix `Bg` as the specification describes it (`Jr`
is `rightJacobian(ω·Δt)`). -/
def specBg (Jr : Mat33 K) (dt : K) : Mat93 K :=
  ofBlocks93 ![0, 0, dt • Jr]

/-- The accelerometer-noise input matrix `Ca` as the specification describes
it (`R` is `deltaR`). -/
def specCa (R : Mat33 K) (dt : K) : Mat93 K :=
  ofBlocks93 ![(1 / 2 * dt ^ 2) • R, dt • R, 0]

/-- A square matrix is symmetric and positive-semidefinite. -/
def IsSymmPSD {n : Nat} (M : Matrix (Fin n) (Fin n) K) : Prop :=
  M.transpose = M ∧ ∀ x : Fin n → K, 0 ≤ Matrix.dotProduct x (M.mulVec x)

/-- A 3×3 matrix is a valid rotation: orthonormal with determinant `+1`. -/
def IsRotation (R : Mat33 K) : Prop :=
  R.transpose * R = 1 ∧ R.det = 1

/-- The sample `(0, 0, dt)` of a motionless interval. -/
def zeroMotion (dt : K) : IMUPreintegrator.Sample K := (0, 0, dt)

/-- The sample `(0, a, dt)`: no rotation, acceleration `a`. -/
def constAcc (a : Vec3 K) (dt : K) : IMUPreintegrator.Sample K := (0, a, dt)

/-- Modelled from the spec: `skew(v)`, declared outside the source file, is
the cross-product matrix of `v`, with `skew(v)·x = v × x`. -/
def skewCross (v : Vec3 K) : Mat33 K :=
  !![0, -v 2, v 1; v 2, 0, -v 0; -v 1, v 0, 0]

/-- Modelled from the spec: `expMap`, declared outside the source file, maps an
axis-angle vector to its rotation matrix.  This is the closed form of the
exponential of `S = skew(v)` given the sine `sn`, the cosine `cs` and the value
`θ` of the angle `‖v‖`. -/
def rodrigues (sn cs θ : K) (S : Mat33 K) : Mat33 K :=
  1 + (sn / θ) • S + ((1 - cs) / θ ^ 2) • (S * S)

/-- The contract "`E` is the SO(3) exponential map" for a real `Expmap`. -/
def IsSO3Exp (E : Vec3 ℝ → Mat33 ℝ) : Prop :=
  ∀ v : Vec3 ℝ,
    E v = rodrigues (Real.sin (Real.sqrt (Matrix.dotProduct v v)))
      (Real.cos (Real.sqrt (Matrix.dotProduct v v))) (Real.sqrt (Matrix.dotProduct v v))
      (skewCross v)

/-- A rational renormalisation used to evaluate the model: it keeps a rotation
and sends everything else to the identity. -/
def demoNormalize (M : Mat33 ℚ) : Mat33 ℚ :=
  if M.transpose * M = 1 ∧ M.det = 1 then M else 1

/-- Rational stand-ins for the rotation utilities, exact at the zero vector
(`Expmap` and `JacobianR` to first order), used to evaluate the model on
concrete inputs. -/
def demoLib : SO3Lib ℚ where
  Expmap := fun v => 1 + skewCross v
  JacobianR := fun v => 1 - (1 / 2 : ℚ) • skewCross v
  skew := skewCross
  normalizeRotationM := demoNormalize

/-- Isotropic unit noise covariances, used to evaluate the model. -/
def demoCfg : Settings ℚ where
  GyrCov := 1
  AccCov := 1

/-- Some object in use, on which `reset` is evaluated. -/
def demoState : IMUPreintegrator ℚ where
  _delta_P := ![1, 2, 3]
  _delta_V := ![4, 5, 6]
  _delta_R := !![0, -1, 0; 1, 0, 0; 0, 0, 1]
  _J_P_Biasg := 1
  _J_P_Biasa := 1
  _J_V_Biasg := 1
  _J_V_Biasa := 1
  _J_R_Biasg := 1
  _cov_P_V_Phi := 1
  _delta_time := 7

/-- The gyroscope part `(omega, dt)` of a sample. -/
def gyroPart (u : IMUPreintegrator.Sample K) : Vec3 K × K := (u.1, u.2.2)

/-- The samples with gyroscope data `us` (pairs `(omega, dt)`) and one and the
same acceleration `a` at every step. -/
def withAcc (a : Vec3 K) (us : List (Vec3 K × K)) : List (IMUPreintegrator.Sample K) :=
  us.map fun u => (u.1, a, u.2)

/-- The 3×3 block of a 9×9 matrix at rows `3a..3a+2`, columns `3b..3b+2`
(Eigen `M.block<3,3>(3a,3b)` read as a value). -/
def blockOf (M : Mat99 K) (a b : Fin 3) : Mat33 K :=
  Matrix.of fun i j => M ⟨3 * a.val + i.val, by omega⟩ ⟨3 * b.val + j.val, by omega⟩

/-- The 3×3 block of a 9×3 matrix at rows `3a..3a+2`. -/
def blockOf93 (M : Mat93 K) (a : Fin 3) : Mat33 K :=
  Matrix.of fun i j => M ⟨3 * a.val + i.val, by omega⟩ j

/-- Rational rotation utilities on the z-axis with the angle counted in quarter
turns: `Expmap [0,0,1]` is the quarter turn and `Expmap [0,0,2]` the half turn.
Used to evaluate the model on a genuine rotation. -/
def quarterTurnLib : SO3Lib ℚ where
  Expmap := fun v =>
    if v = ![0, 0, 1] then !![0, -1, 0; 1, 0, 0; 0, 0, 1]
    else if v = ![0, 0, 2] then !![-1, 0, 0; 0, -1, 0; 0, 0, 1]
    else 1
  JacobianR := fun _ => 1
  skew := skewCross
  normalizeRotationM := demoNormalize

/-- Rotation utilities for runs without rotation: `Expmap` and `JacobianR` to
first order (the identity at the zero vector), the cross-product `skew`, and a
renormalisation that returns its argument.  Used to evaluate the binary64
model. -/
def plainLib : SO3Lib ℚ where
  Expmap := fun v => 1 + skewCross v
  JacobianR := fun v => 1 - (1 / 2 : ℚ) • skewCross v
  skew := skewCross
  normalizeRotationM := fun M => M

/-- Utilities whose `Expmap` returns a reflection at `[0,0,1]` and the identity
elsewhere (so `Expmap [0,0,2] = Expmap [0,0,1]²`), with a renormalisation that
fixes rotations. -/
def mirrorLib : SO3Lib ℚ where
  Expmap := fun v => if v = ![0, 0, 1] then !![-1, 0, 0; 0, 1, 0; 0, 0, 1] else 1
  JacobianR := fun _ => 1
  skew := skewCross
  normalizeRotationM := demoNormalize

/-- The reset state after `0.3` time units have elapsed. -/
def runningState : IMUPreintegrator ℚ :=
  { (IMUPreintegrator.reset demoState : IMUPreintegrator ℚ) with _delta_time := fl 0.3 }

/-- The vector `(M₀₃, 0, 0, -M₀₀, 0, …)`: the quadratic form of a symmetric `M`
at it is `M₀₀·(M₀₀·M₃₃ - M₀₃²)`. -/
def badDirection (M : Mat99 ℚ) : Fin 9 → ℚ :=
  fun i => if i = 0 then M 0 3 else if i = 3 then -M 0 0 else 0

end Specification

/-! ## Auxiliary facts -/

section Auxiliary

open IMUPreintegrator

variable {K : Type} [LinearOrderedField K]

theorem half_lit : (0.5 : K) = 1 / 2 := by norm_num

theorem one_eq_ofBlocks99 :
    (1 : Mat99 K) = ofBlocks99 fun a b => if a = b then 1 else 0 := by
  ext i j
  simp only [ofBlocks99, Matrix.of_apply, Matrix.one_apply]
  by_cases h : i = j
  · subst h; simp
  · have hij : i.val ≠ j.val := fun e => h (Fin.ext e)
    by_cases hb : i.val / 3 = j.val / 3
    · have hm : i.val % 3 ≠ j.val % 3 := by omega
      simp [h, hb, Matrix.one_apply, Fin.ext_iff, hm]
    · simp [h, hb, Fin.ext_iff]

theorem zero_eq_ofBlocks93 : (0 : Mat93 K) = ofBlocks93 fun _ => 0 := by
  ext i j
  simp [ofBlocks93]

theorem setBlock_ofBlocks99 (B : Fin 3 → Fin 3 → Mat33 K) (a b : Fin 3) (r c : Nat)
    (hr : r = 3 * a.val) (hc : c = 3 * b.val) (M : Mat33 K) :
    setBlock (ofBlocks99 B) r c M
      = ofBlocks99 fun x y => if x = a ∧ y = b then M else B x y := by
  subst hr hc
  ext i j
  simp only [setBlock, ofBlocks99, Matrix.of_apply, Fin.ext_iff]
  by_cases h : (3 * a.val ≤ i.val ∧ i.val < 3 * a.val + 3) ∧
      (3 * b.val ≤ j.val ∧ j.val < 3 * b.val + 3)
  · have h1 : i.val / 3 = a.val := by omega
    have h2 : j.val / 3 = b.val := by omega
    have h3 : i.val - 3 * a.val = i.val % 3 := by omega
    have h4 : j.val - 3 * b.val = j.val % 3 := by omega
    simp [h, h1, h2, h3, h4]
  · have h5 : ¬ (i.val / 3 = a.val ∧ j.val / 3 = b.val) := by omega
    simp [h, h5]

theorem setBlock_ofBlocks93 (B : Fin 3 → Mat33 K) (a : Fin 3) (r : Nat)
    (hr : r = 3 * a.val) (M : Mat33 K) :
    setBlock (ofBlocks93 B) r 0 M
      = ofBlocks93 fun x => if x = a then M else B x := by
  subst hr
  ext i j
  have hj : (0 ≤ j.val ∧ j.val < 0 + 3) := by omega
  simp only [setBlock, ofBlocks93, Matrix.of_apply, Fin.ext_iff, hj, and_true]
  by_cases h : 3 * a.val ≤ i.val ∧ i.val < 3 * a.val + 3
  · have h1 : i.val / 3 = a.val := by omega
    have h3 : i.val - 3 * a.val = i.val % 3 := by omega
    simp [h, h1, h3]
  · have h5 : ¬ (i.val / 3 = a.val) := by omega
    simp [h, h5]

/-- The matrix `A` that `update` assembles block by block is `specA`. -/
theorem codeA_eq (R S dR : Mat33 K) (dt : K) :
    setBlock (setBlock (setBlock (setBlock (1 : Mat99 K) 6 6 dR.transpose) 3 6
      (dt • (-R * S))) 0 6 ((dt * dt) • ((-0.5 : K) • R * S))) 0 3 (dt • (1 : Mat33 K))
      = specA R S dR dt := by
  rw [one_eq_ofBlocks99, setBlock_ofBlocks99 _ 2 2 6 6 rfl rfl,
    setBlock_ofBlocks99 _ 1 2 3 6 rfl rfl, setBlock_ofBlocks99 _ 0 2 0 6 rfl rfl,
    setBlock_ofBlocks99 _ 0 1 0 3 rfl rfl, specA]
  refine congrArg ofBlocks99 ?_
  funext a b
  fin_cases a <;> fin_cases b <;>
    simp [half_lit, smul_smul, Matrix.smul_mul, Matrix.vecHead, Matrix.vecTail]
  ring_nf

/-- The matrix `Bg` that `update` assembles is `specBg`. -/
theorem codeBg_eq (Jr : Mat33 K) (dt : K) :
    setBlock (0 : Mat93 K) 6 0 (dt • Jr) = specBg Jr dt := by
  rw [zero_eq_ofBlocks93, setBlock_ofBlocks93 _ 2 6 rfl, specBg]
  refine congrArg ofBlocks93 ?_
  funext a
  fin_cases a <;> simp

/-- The matrix `Ca` that `update` assembles is `specCa`. -/
theorem codeCa_eq (R : Mat33 K) (dt : K) :
    setBlock (setBlock (0 : Mat93 K) 3 0 (dt • R)) 0 0 ((dt * dt) • ((0.5 : K) • R))
      = specCa R dt := by
  rw [zero_eq_ofBlocks93, setBlock_ofBlocks93 _ 1 3 rfl, setBlock_ofBlocks93 _ 0 0 rfl, specCa]
  refine congrArg ofBlocks93 ?_
  funext a
  fin_cases a <;> simp [half_lit, smul_smul]
  ring_nf

theorem update_cov (L : SO3Lib K) (cfg : Settings K) (s : IMUPreintegrator K)
    (omega acc : Vec3 K) (dt : K) :
    (update L cfg s omega acc dt)._cov_P_V_Phi
      = specA s._delta_R (L.skew acc) (L.Expmap (dt • omega)) dt * s._cov_P_V_Phi
          * (specA s._delta_R (L.skew acc) (L.Expmap (dt • omega)) dt).transpose
        + specBg (L.JacobianR (dt • omega)) dt * cfg.GyrCov
          * (specBg (L.JacobianR (dt • omega)) dt).transpose
        + specCa s._delta_R dt * cfg.AccCov * (specCa s._delta_R dt).transpose := by
  show _ * s._cov_P_V_Phi * _ + _ * cfg.GyrCov * _ + _ * cfg.AccCov * _ = _
  rw [codeA_eq, codeBg_eq, codeCa_eq]

theorem update_delta_R (L : SO3Lib K) (cfg : Settings K) (s : IMUPreintegrator K)
    (omega acc : Vec3 K) (dt : K) :
    (update L cfg s omega acc dt)._delta_R
      = L.normalizeRotationM (s._delta_R * L.Expmap (dt • omega)) := rfl

theorem update_delta_V (L : SO3Lib K) (cfg : Settings K) (s : IMUPreintegrator K)
    (omega acc : Vec3 K) (dt : K) :
    (update L cfg s omega acc dt)._delta_V
      = s._delta_V + dt • (s._delta_R.mulVec acc) := rfl

theorem update_delta_P (L : SO3Lib K) (cfg : Settings K) (s : IMUPreintegrator K)
    (omega acc : Vec3 K) (dt : K) :
    (update L cfg s omega acc dt)._delta_P
      = s._delta_P + dt • s._delta_V + (1 / 2 * dt ^ 2) • (s._delta_R.mulVec acc) := by
  show s._delta_P + (dt • s._delta_V + (dt * dt) • (((0.5 : K) • s._delta_R).mulVec acc)) = _
  rw [half_lit, Matrix.smul_mulVec_assoc, smul_smul, ← add_assoc]
  congr 2; ring

theorem update_delta_time (L : SO3Lib K) (cfg : Settings K) (s : IMUPreintegrator K)
    (omega acc : Vec3 K) (dt : K) :
    (update L cfg s omega acc dt)._delta_time = s._delta_time + dt := rfl

theorem updates_append (L : SO3Lib K) (cfg : Settings K) (us vs : List (Sample K)) :
    ∀ s : IMUPreintegrator K,
      updates L cfg s (us ++ vs) = updates L cfg (updates L cfg s us) vs := by
  induction us with
  | nil => intro s; rfl
  | cons u us ih => intro s; exact ih _

theorem updates_snoc (L : SO3Lib K) (cfg : Settings K) (s : IMUPreintegrator K)
    (us : List (Sample K)) (u : Sample K) :
    updates L cfg s (us ++ [u]) = update L cfg (updates L cfg s us) u.1 u.2.1 u.2.2 := by
  rw [updates_append]; rfl

theorem updates_delta_time (L : SO3Lib K) (cfg : Settings K) (us : List (Sample K)) :
    ∀ s : IMUPreintegrator K,
      (updates L cfg s us)._delta_time = s._delta_time + (us.map fun u => u.2.2).sum := by
  induction us with
  | nil => intro s; simp [updates]
  | cons u us ih =>
    intro s
    rw [updates, ih, update_delta_time, List.map_cons, List.sum_cons, add_assoc]

theorem isSymmPSD_zero {n : Nat} : IsSymmPSD (0 : Matrix (Fin n) (Fin n) K) := by
  refine ⟨Matrix.transpose_zero, fun x => ?_⟩
  rw [Matrix.zero_mulVec, Matrix.dotProduct_zero]

theorem isSymmPSD_one {n : Nat} : IsSymmPSD (1 : Matrix (Fin n) (Fin n) K) := by
  refine ⟨Matrix.transpose_one, fun x => ?_⟩
  rw [Matrix.one_mulVec]
  exact Finset.sum_nonneg fun i _ => mul_self_nonneg (x i)

theorem IsSymmPSD.add {n : Nat} {M N : Matrix (Fin n) (Fin n) K}
    (hM : IsSymmPSD M) (hN : IsSymmPSD N) : IsSymmPSD (M + N) := by
  refine ⟨?_, fun x => ?_⟩
  · rw [Matrix.transpose_add, hM.1, hN.1]
  · rw [Matrix.add_mulVec, Matrix.dotProduct_add]
    exact add_nonneg (hM.2 x) (hN.2 x)

/-- A congruence transform `B·M·Bᵀ` of a symmetric PSD matrix is symmetric PSD. -/
theorem IsSymmPSD.congruence {m n : Nat} {M : Matrix (Fin n) (Fin n) K}
    (hM : IsSymmPSD M) (B : Matrix (Fin m) (Fin n) K) : IsSymmPSD (B * M * B.transpose) := by
  refine ⟨?_, fun x => ?_⟩
  · rw [Matrix.transpose_mul, Matrix.transpose_mul, Matrix.transpose_transpose, hM.1,
      Matrix.mul_assoc]
  · have h := hM.2 (B.transpose.mulVec x)
    have e : Matrix.dotProduct x ((B * M * B.transpose).mulVec x)
        = Matrix.dotProduct (B.transpose.mulVec x) (M.mulVec (B.transpose.mulVec x)) := by
      rw [← Matrix.mulVec_mulVec, ← Matrix.mulVec_mulVec, Matrix.dotProduct_mulVec,
        Matrix.mulVec_transpose]
    rw [e]
    exact h

theorem IsSymmPSD.diag_nonneg {n : Nat} {M : Matrix (Fin n) (Fin n) K}
    (hM : IsSymmPSD M) (i : Fin n) : 0 ≤ M i i := by
  have h := hM.2 (Pi.single i 1)
  rw [Matrix.mulVec_single_one, Matrix.single_dotProduct, one_mul] at h
  simpa using h

theorem update_cov_psd (L : SO3Lib K) (cfg : Settings K)
    (hG : IsSymmPSD cfg.GyrCov) (hA : IsSymmPSD cfg.AccCov) (s : IMUPreintegrator K)
    (hs : IsSymmPSD s._cov_P_V_Phi) (omega acc : Vec3 K) (dt : K) :
    IsSymmPSD (update L cfg s omega acc dt)._cov_P_V_Phi := by
  rw [update_cov]
  exact ((hs.congruence _).add (hG.congruence _)).add (hA.congruence _)

theorem updates_cov_psd (L : SO3Lib K) (cfg : Settings K)
    (hG : IsSymmPSD cfg.GyrCov) (hA : IsSymmPSD cfg.AccCov) (us : List (Sample K)) :
    ∀ s : IMUPreintegrator K, IsSymmPSD s._cov_P_V_Phi →
      IsSymmPSD (updates L cfg s us)._cov_P_V_Phi := by
  induction us with
  | nil => intro s hs; exact hs
  | cons u us ih => intro s hs; exact ih _ (update_cov_psd L cfg hG hA s hs _ _ _)

theorem isRotation_one : IsRotation (1 : Mat33 K) := by
  constructor
  · rw [Matrix.transpose_one, Matrix.one_mul]
  · exact Matrix.det_one

theorem updates_isRotation (L : SO3Lib K) (cfg : Settings K)
    (hN : ∀ M : Mat33 K, IsRotation (L.normalizeRotationM M)) (us : List (Sample K)) :
    ∀ s : IMUPreintegrator K, IsRotation s._delta_R →
      IsRotation (updates L cfg s us)._delta_R := by
  induction us with
  | nil => intro s hs; exact hs
  | cons u us ih => intro s _; exact ih _ (hN _)

/-- The state after `n` updates without rotation and with one acceleration `a`. -/
theorem constAcc_state (L : SO3Lib K) (cfg : Settings K) (hE : L.Expmap 0 = 1)
    (hN : L.normalizeRotationM 1 = 1) (s0 : IMUPreintegrator K) (a : Vec3 K) (dt : K)
    (n : Nat) :
    (updates L cfg (reset s0) (List.replicate n (constAcc a dt)))._delta_R = 1 ∧
    (updates L cfg (reset s0) (List.replicate n (constAcc a dt)))._delta_V
      = ((n : K) * dt) • a ∧
    (updates L cfg (reset s0) (List.replicate n (constAcc a dt)))._delta_P
      = (1 / 2 * ((n : K) * dt) ^ 2) • a ∧
    (updates L cfg (reset s0) (List.replicate n (constAcc a dt)))._delta_time
      = (n : K) * dt := by
  induction n with
  | zero =>
    refine ⟨rfl, ?_, ?_, ?_⟩
    · show (0 : Vec3 K) = _
      simp
    · show (0 : Vec3 K) = _
      simp
    · show (0 : K) = _
      simp
  | succ n ih =>
    obtain ⟨hR, hV, hP, hT⟩ := ih
    rw [List.replicate_succ', updates_snoc]
    refine ⟨?_, ?_, ?_, ?_⟩
    · rw [update_delta_R, hR]
      show L.normalizeRotationM (1 * L.Expmap (dt • (0 : Vec3 K))) = 1
      rw [smul_zero, hE, Matrix.one_mul, hN]
    · rw [update_delta_V, hR, hV, Matrix.one_mulVec]
      show ((n : K) * dt) • a + dt • a = _
      rw [← add_smul]
      congr 1; push_cast; ring
    · rw [update_delta_P, hR, hV, hP, Matrix.one_mulVec]
      show (1 / 2 * ((n : K) * dt) ^ 2) • a + dt • ((n : K) * dt) • a + (1 / 2 * dt ^ 2) • a = _
      rw [smul_smul, ← add_smul, ← add_smul]
      congr 1; push_cast; ring
    · rw [update_delta_time, hT]
      show (n : K) * dt + dt = _
      push_cast; ring

/-- Under zero motion every update applies one fixed affine map to the covariance. -/
theorem zeroMotion_cov_succ (L : SO3Lib K) (cfg : Settings K) (hE : L.Expmap 0 = 1)
    (hN : L.normalizeRotationM 1 = 1) (s0 : IMUPreintegrator K) (dt : K) (n : Nat) :
    (updates L cfg (reset s0) (List.replicate (n + 1) (zeroMotion dt)))._cov_P_V_Phi
      = specA 1 (L.skew 0) (L.Expmap (dt • (0 : Vec3 K))) dt
          * (updates L cfg (reset s0) (List.replicate n (zeroMotion dt)))._cov_P_V_Phi
          * (specA 1 (L.skew 0) (L.Expmap (dt • (0 : Vec3 K))) dt).transpose
        + (specBg (L.JacobianR (dt • (0 : Vec3 K))) dt * cfg.GyrCov
            * (specBg (L.JacobianR (dt • (0 : Vec3 K))) dt).transpose
          + specCa 1 dt * cfg.AccCov * (specCa 1 dt).transpose) := by
  have hR := (constAcc_state L cfg hE hN s0 0 dt n).1
  rw [List.replicate_succ', updates_snoc, update_cov]
  show _ = _
  rw [show (updates L cfg (reset s0) (List.replicate n (zeroMotion dt)))._delta_R = 1 from hR,
    add_assoc]
  rfl

theorem zeroMotion_cov_diff_psd (L : SO3Lib K) (cfg : Settings K)
    (hG : IsSymmPSD cfg.GyrCov) (hA : IsSymmPSD cfg.AccCov) (hE : L.Expmap 0 = 1)
    (hN : L.normalizeRotationM 1 = 1) (s0 : IMUPreintegrator K) (dt : K) (n : Nat) :
    IsSymmPSD
      ((updates L cfg (reset s0) (List.replicate (n + 1) (zeroMotion dt)))._cov_P_V_Phi
        - (updates L cfg (reset s0) (List.replicate n (zeroMotion dt)))._cov_P_V_Phi) := by
  induction n with
  | zero =>
    rw [zeroMotion_cov_succ L cfg hE hN]
    show IsSymmPSD (_ * (0 : Mat99 K) * _ + _ - (0 : Mat99 K))
    rw [Matrix.mul_zero, Matrix.zero_mul, zero_add, sub_zero]
    exact (hG.congruence _).add (hA.congruence _)
  | succ n ih =>
    rw [zeroMotion_cov_succ L cfg hE hN s0 dt (n + 1)]
    nth_rewrite 2 [zeroMotion_cov_succ L cfg hE hN s0 dt n]
    rw [add_sub_add_right_eq_sub, ← Matrix.sub_mul, ← Matrix.mul_sub]
    exact ih.congruence _

theorem demoLib_Expmap_zero : demoLib.Expmap 0 = 1 := by
  show (1 : Mat33 ℚ) + skewCross 0 = 1
  rw [add_right_eq_self]
  ext i j
  fin_cases i <;> fin_cases j <;> simp [skewCross, Matrix.vecHead, Matrix.vecTail]

theorem demoNormalize_one : demoLib.normalizeRotationM 1 = 1 := by
  show demoNormalize 1 = 1
  unfold demoNormalize
  split_ifs <;> rfl

theorem demoNormalize_isRotation (M : Mat33 ℚ) : IsRotation (demoLib.normalizeRotationM M) := by
  show IsRotation (demoNormalize M)
  unfold demoNormalize
  split_ifs with h
  · exact h
  · exact isRotation_one

/-- The exponential of the rotation vector `(0, 0, π)` is the half turn about `z`. -/
theorem rodrigues_half_turn :
    rodrigues (Real.sin (Real.sqrt (Matrix.dotProduct ![0, 0, Real.pi] ![0, 0, Real.pi])))
      (Real.cos (Real.sqrt (Matrix.dotProduct ![0, 0, Real.pi] ![0, 0, Real.pi])))
      (Real.sqrt (Matrix.dotProduct ![0, 0, Real.pi] ![0, 0, Real.pi]))
      (skewCross ![0, 0, Real.pi])
      = !![-1, 0, 0; 0, -1, 0; 0, 0, 1] := by
  have hn : Real.sqrt (Matrix.dotProduct ![0, 0, Real.pi] ![0, 0, Real.pi]) = Real.pi := by
    have : Matrix.dotProduct ![0, 0, Real.pi] ![0, 0, Real.pi] = Real.pi ^ 2 := by
      simp [Matrix.dotProduct, Fin.sum_univ_three, pow_two]
    rw [this, Real.sqrt_sq Real.pi_pos.le]
  have hp : Real.pi ≠ 0 := Real.pi_ne_zero
  rw [hn, Real.sin_pi, Real.cos_pi]
  ext i j
  fin_cases i <;> fin_cases j <;>
    simp [rodrigues, skewCross, Matrix.mul_apply, Fin.sum_univ_three, Matrix.one_apply,
      Matrix.vecHead, Matrix.vecTail] <;>
    field_simp <;> ring

theorem isRotation_half_turn : IsRotation (!![-1, 0, 0; 0, -1, 0; 0, 0, 1] : Mat33 ℝ) := by
  constructor
  · ext i j
    fin_cases i <;> fin_cases j <;>
      simp [Matrix.mul_apply, Fin.sum_univ_three, Matrix.vecHead, Matrix.vecTail]
  · simp [Matrix.det_fin_three]

theorem update_J_P_Biasa (L : SO3Lib K) (cfg : Settings K) (s : IMUPreintegrator K)
    (omega acc : Vec3 K) (dt : K) :
    (update L cfg s omega acc dt)._J_P_Biasa
      = s._J_P_Biasa + dt • s._J_V_Biasa - (1 / 2 * dt ^ 2) • s._delta_R := by
  show s._J_P_Biasa + (dt • s._J_V_Biasa - (dt * dt) • ((0.5 : K) • s._delta_R)) = _
  rw [half_lit, smul_smul, add_sub_assoc]
  congr 3; ring

theorem update_J_P_Biasg (L : SO3Lib K) (cfg : Settings K) (s : IMUPreintegrator K)
    (omega acc : Vec3 K) (dt : K) :
    (update L cfg s omega acc dt)._J_P_Biasg
      = s._J_P_Biasg + dt • s._J_V_Biasg
        - (1 / 2 * dt ^ 2) • (s._delta_R * L.skew acc * s._J_R_Biasg) := by
  show s._J_P_Biasg + (dt • s._J_V_Biasg
    - (dt * dt) • ((0.5 : K) • s._delta_R * L.skew acc * s._J_R_Biasg)) = _
  rw [half_lit, Matrix.smul_mul, Matrix.smul_mul, smul_smul, add_sub_assoc]
  congr 3; ring

theorem update_J_V_Biasa (L : SO3Lib K) (cfg : Settings K) (s : IMUPreintegrator K)
    (omega acc : Vec3 K) (dt : K) :
    (update L cfg s omega acc dt)._J_V_Biasa = s._J_V_Biasa - dt • s._delta_R := by
  show s._J_V_Biasa + dt • (-s._delta_R) = _
  rw [smul_neg, sub_eq_add_neg]

theorem update_J_V_Biasg (L : SO3Lib K) (cfg : Settings K) (s : IMUPreintegrator K)
    (omega acc : Vec3 K) (dt : K) :
    (update L cfg s omega acc dt)._J_V_Biasg
      = s._J_V_Biasg - dt • (s._delta_R * L.skew acc * s._J_R_Biasg) := by
  show s._J_V_Biasg + dt • (-s._delta_R * L.skew acc * s._J_R_Biasg) = _
  rw [Matrix.neg_mul, Matrix.neg_mul, smul_neg, sub_eq_add_neg]

theorem update_J_R_Biasg (L : SO3Lib K) (cfg : Settings K) (s : IMUPreintegrator K)
    (omega acc : Vec3 K) (dt : K) :
    (update L cfg s omega acc dt)._J_R_Biasg
      = (L.Expmap (dt • omega)).transpose * s._J_R_Biasg - dt • L.JacobianR (dt • omega) :=
  rfl

/-- The position after ten free-fall steps of `0.1` under `a = [0,0,9.81]`. -/
theorem freeFall_delta_P (L : SO3Lib K) (cfg : Settings K) (hE : L.Expmap 0 = 1)
    (hN : L.normalizeRotationM 1 = 1) (s0 : IMUPreintegrator K) :
    (updates L cfg (reset s0) (List.replicate 10 (constAcc ![0, 0, 9.81] 0.1)))._delta_P
      = ![0, 0, 4.905] := by
  rw [(constAcc_state L cfg hE hN s0 ![0, 0, 9.81] 0.1 10).2.2.1]
  funext i
  fin_cases i <;> simp
  norm_num

/-- Two runs whose samples agree in `(omega, dt)` agree in the orientation part. -/
theorem updates_gyro_only (L : SO3Lib K) (cfg : Settings K) (us : List (Sample K)) :
    ∀ (vs : List (Sample K)) (s t : IMUPreintegrator K),
      us.map gyroPart = vs.map gyroPart →
      s._delta_R = t._delta_R → s._J_R_Biasg = t._J_R_Biasg →
      s._delta_time = t._delta_time →
      (updates L cfg s us)._delta_R = (updates L cfg t vs)._delta_R ∧
      (updates L cfg s us)._J_R_Biasg = (updates L cfg t vs)._J_R_Biasg ∧
      (updates L cfg s us)._delta_time = (updates L cfg t vs)._delta_time := by
  induction us with
  | nil =>
    intro vs s t h hR hJ hT
    cases vs with
    | nil => exact ⟨hR, hJ, hT⟩
    | cons v vs => simp at h
  | cons u us ih =>
    intro vs s t h hR hJ hT
    cases vs with
    | nil => simp at h
    | cons v vs =>
      rw [List.map_cons, List.map_cons, List.cons.injEq] at h
      obtain ⟨huv, hrest⟩ := h
      have huv2 : (u.1, u.2.2) = (v.1, v.2.2) := huv
      have h1 : u.1 = v.1 := (Prod.mk.inj huv2).1
      have h2 : u.2.2 = v.2.2 := (Prod.mk.inj huv2).2
      refine ih vs _ _ hrest ?_ ?_ ?_
      · rw [update_delta_R, update_delta_R, h1, h2, hR]
      · rw [update_J_R_Biasg, update_J_R_Biasg, h1, h2, hJ]
      · rw [update_delta_time, update_delta_time, h2, hT]

theorem updates_time_nonneg (L : SO3Lib K) (cfg : Settings K) (s : IMUPreintegrator K)
    (hs : 0 ≤ s._delta_time) (us : List (Sample K)) (hpos : ∀ u ∈ us, 0 < u.2.2) :
    0 ≤ (updates L cfg s us)._delta_time := by
  rw [updates_delta_time]
  refine add_nonneg hs (List.sum_nonneg ?_)
  intro x hx
  obtain ⟨u, hu, rfl⟩ := List.mem_map.mp hx
  exact (hpos u hu).le

theorem updates_take_succ_time (L : SO3Lib K) (cfg : Settings K) (s : IMUPreintegrator K)
    (us : List (Sample K)) (k : Nat) (hk : k < us.length) :
    (updates L cfg s (us.take (k + 1)))._delta_time
      = (updates L cfg s (us.take k))._delta_time + (us.get ⟨k, hk⟩).2.2 := by
  rw [updates_delta_time, updates_delta_time, List.map_take, List.map_take,
    List.sum_take_succ _ _ (by simpa using hk), add_assoc]
  simp

/-- Under one and the same acceleration `a` the deltas stay `-J·a`. -/
theorem updates_withAcc_jacobians (L : SO3Lib K) (cfg : Settings K) (a : Vec3 K)
    (us : List (Vec3 K × K)) :
    ∀ s : IMUPreintegrator K,
      s._delta_V = -(s._J_V_Biasa.mulVec a) → s._delta_P = -(s._J_P_Biasa.mulVec a) →
      (updates L cfg s (withAcc a us))._delta_V
          = -((updates L cfg s (withAcc a us))._J_V_Biasa.mulVec a) ∧
        (updates L cfg s (withAcc a us))._delta_P
          = -((updates L cfg s (withAcc a us))._J_P_Biasa.mulVec a) := by
  induction us with
  | nil => intro s hV hP; exact ⟨hV, hP⟩
  | cons u us ih =>
    intro s hV hP
    refine ih _ ?_ ?_
    · rw [update_delta_V, update_J_V_Biasa, hV, Matrix.sub_mulVec, Matrix.smul_mulVec_assoc]
      show _ + u.2 • _ = -(_ - u.2 • _)
      abel
    · rw [update_delta_P, update_J_P_Biasa, hV, hP, Matrix.sub_mulVec, Matrix.add_mulVec,
        Matrix.smul_mulVec_assoc, Matrix.smul_mulVec_assoc]
      show _ + u.2 • _ + (1 / 2 * u.2 ^ 2) • _ = -(_ + u.2 • _ - (1 / 2 * u.2 ^ 2) • _)
      rw [smul_neg]
      abel

theorem blockOf_ofBlocks99 (B : Fin 3 → Fin 3 → Mat33 K) (a b : Fin 3) :
    blockOf (ofBlocks99 B) a b = B a b := by
  ext i j
  simp only [blockOf, ofBlocks99, Matrix.of_apply]
  have h1 : (3 * a.val + i.val) / 3 = a.val := by omega
  have h2 : (3 * b.val + j.val) / 3 = b.val := by omega
  have h3 : (3 * a.val + i.val) % 3 = i.val := by omega
  have h4 : (3 * b.val + j.val) % 3 = j.val := by omega
  simp only [h1, h2, h3, h4]

theorem blockOf93_ofBlocks93 (B : Fin 3 → Mat33 K) (a : Fin 3) :
    blockOf93 (ofBlocks93 B) a = B a := by
  ext i j
  simp only [blockOf93, ofBlocks93, Matrix.of_apply]
  have h1 : (3 * a.val + i.val) / 3 = a.val := by omega
  have h3 : (3 * a.val + i.val) % 3 = i.val := by omega
  simp only [h1, h3]

theorem sum_fin9_blocks (f : Fin 9 → K) :
    ∑ k : Fin 9, f k
      = ∑ b : Fin 3, ∑ q : Fin 3, f ⟨3 * b.val + q.val, by omega⟩ := by
  rw [Fin.sum_univ_castSucc, Fin.sum_univ_eight, Fin.sum_univ_three, Fin.sum_univ_three,
    Fin.sum_univ_three, Fin.sum_univ_three]
  simp only [add_assoc]
  rfl

theorem blockOf_mul (M N : Mat99 K) (a c : Fin 3) :
    blockOf (M * N) a c = ∑ b : Fin 3, blockOf M a b * blockOf N b c := by
  ext i j
  simp only [blockOf, Matrix.of_apply, Matrix.mul_apply, Matrix.sum_apply]
  rw [sum_fin9_blocks]

theorem blockOf_transpose (M : Mat99 K) (a b : Fin 3) :
    blockOf M.transpose a b = (blockOf M b a).transpose := rfl

theorem blockOf_add (M N : Mat99 K) (a b : Fin 3) :
    blockOf (M + N) a b = blockOf M a b + blockOf N a b := rfl

theorem blockOf_mul93 (X : Mat93 K) (G : Mat33 K) (Y : Mat93 K) (a c : Fin 3) :
    blockOf (X * G * Y.transpose) a c = blockOf93 X a * G * (blockOf93 Y c).transpose := by
  ext i j
  simp only [blockOf, blockOf93, Matrix.of_apply, Matrix.mul_apply, Matrix.transpose_apply]

theorem blockOf_congruence (A M : Mat99 K) (a c : Fin 3) :
    blockOf (A * M * A.transpose) a c
      = ∑ d : Fin 3, (∑ b : Fin 3, blockOf A a b * blockOf M b d) * (blockOf A c d).transpose := by
  rw [blockOf_mul]
  refine Finset.sum_congr rfl fun d _ => ?_
  rw [blockOf_mul, blockOf_transpose]

/-- With `skew acc = 0` the position/velocity-rotation blocks of the covariance stay zero. -/
theorem update_cov_cross_blocks (L : SO3Lib K) (cfg : Settings K) (s : IMUPreintegrator K)
    (omega acc : Vec3 K) (dt : K) (hS : L.skew acc = 0)
    (h02 : blockOf s._cov_P_V_Phi 0 2 = 0) (h12 : blockOf s._cov_P_V_Phi 1 2 = 0)
    (h20 : blockOf s._cov_P_V_Phi 2 0 = 0) (h21 : blockOf s._cov_P_V_Phi 2 1 = 0) :
    blockOf (update L cfg s omega acc dt)._cov_P_V_Phi 0 2 = 0 ∧
    blockOf (update L cfg s omega acc dt)._cov_P_V_Phi 1 2 = 0 ∧
    blockOf (update L cfg s omega acc dt)._cov_P_V_Phi 2 0 = 0 ∧
    blockOf (update L cfg s omega acc dt)._cov_P_V_Phi 2 1 = 0 := by
  rw [update_cov, hS]
  simp only [blockOf_add, blockOf_congruence, blockOf_mul93]
  simp [specA, specBg, specCa, blockOf_ofBlocks99, blockOf93_ofBlocks93, Fin.sum_univ_three,
    h02, h12, h20, h21]

theorem specA_dt_zero (R S : Mat33 K) : specA R S 1 0 = 1 := by
  rw [one_eq_ofBlocks99, specA]
  refine congrArg ofBlocks99 ?_
  funext a b
  fin_cases a <;> fin_cases b <;> simp [Matrix.vecHead, Matrix.vecTail]

theorem specBg_dt_zero (Jr : Mat33 K) : specBg Jr 0 = 0 := by
  rw [zero_eq_ofBlocks93, specBg]
  refine congrArg ofBlocks93 ?_
  funext a
  fin_cases a <;> simp [Matrix.vecHead, Matrix.vecTail]

theorem specCa_dt_zero (R : Mat33 K) : specCa R 0 = 0 := by
  rw [zero_eq_ofBlocks93, specCa]
  refine congrArg ofBlocks93 ?_
  funext a
  fin_cases a <;> simp [Matrix.vecHead, Matrix.vecTail]

theorem IMUPreintegrator.eq_of_fields {s t : IMUPreintegrator K}
    (h1 : s._delta_P = t._delta_P) (h2 : s._delta_V = t._delta_V)
    (h3 : s._delta_R = t._delta_R) (h4 : s._J_P_Biasg = t._J_P_Biasg)
    (h5 : s._J_P_Biasa = t._J_P_Biasa) (h6 : s._J_V_Biasg = t._J_V_Biasg)
    (h7 : s._J_V_Biasa = t._J_V_Biasa) (h8 : s._J_R_Biasg = t._J_R_Biasg)
    (h9 : s._cov_P_V_Phi = t._cov_P_V_Phi) (h10 : s._delta_time = t._delta_time) : s = t := by
  cases s
  cases t
  simp only [IMUPreintegrator.mk.injEq]
  exact ⟨h1, h2, h3, h4, h5, h6, h7, h8, h9, h10⟩

theorem update_dt_zero (L : SO3Lib K) (cfg : Settings K) (hE : L.Expmap 0 = 1)
    (hN : ∀ R : Mat33 K, IsRotation R → L.normalizeRotationM R = R) (s : IMUPreintegrator K)
    (hs : IsRotation s._delta_R) (omega acc : Vec3 K) :
    update L cfg s omega acc 0 = s := by
  refine IMUPreintegrator.eq_of_fields ?_ ?_ ?_ ?_ ?_ ?_ ?_ ?_ ?_ ?_
  · rw [update_delta_P]; simp
  · rw [update_delta_V]; simp
  · rw [update_delta_R, zero_smul, hE, Matrix.mul_one, hN _ hs]
  · rw [update_J_P_Biasg]; simp
  · rw [update_J_P_Biasa]; simp
  · rw [update_J_V_Biasg]; simp
  · rw [update_J_V_Biasa]; simp
  · rw [update_J_R_Biasg, zero_smul, hE]; simp
  · rw [update_cov, zero_smul, hE, specA_dt_zero, specBg_dt_zero, specCa_dt_zero]; simp
  · rw [update_delta_time, add_zero]

theorem IsRotation.mul {R E : Mat33 K} (hR : IsRotation R) (hE : IsRotation E) :
    IsRotation (R * E) := by
  constructor
  · rw [Matrix.transpose_mul, Matrix.mul_assoc, ← Matrix.mul_assoc R.transpose, hR.1,
      Matrix.one_mul, hE.1]
  · rw [Matrix.det_mul, hR.2, hE.2, one_mul]

theorem IsRotation.eq_one_of_idempotent {E : Mat33 K} (hE : IsRotation E) (h : E = E * E) :
    E = 1 := by
  have h2 : E.transpose * E = E.transpose * (E * E) := congrArg (E.transpose * ·) h
  rw [← Matrix.mul_assoc, hE.1, Matrix.one_mul] at h2
  exact h2.symm

/-- The state after one step `dt` and after two steps `dt/2` with the same `(omega, acc)`. -/
theorem half_steps_compare (L : SO3Lib K) (cfg : Settings K) (s : IMUPreintegrator K)
    (hs : IsRotation s._delta_R) (omega acc : Vec3 K) (dt : K)
    (hRot : IsRotation (L.Expmap ((dt / 2) • omega)))
    (hE : L.Expmap (dt • omega) = L.Expmap ((dt / 2) • omega) * L.Expmap ((dt / 2) • omega))
    (hN : ∀ R : Mat33 K, IsRotation R → L.normalizeRotationM R = R) :
    (update L cfg s omega acc dt)._delta_time
      = (update L cfg (update L cfg s omega acc (dt / 2)) omega acc (dt / 2))._delta_time ∧
    (update L cfg s omega acc dt)._delta_R
      = (update L cfg (update L cfg s omega acc (dt / 2)) omega acc (dt / 2))._delta_R ∧
    (update L cfg s omega acc dt)._delta_V
        - (update L cfg (update L cfg s omega acc (dt / 2)) omega acc (dt / 2))._delta_V
      = (dt / 2) • ((s._delta_R * (1 - L.Expmap ((dt / 2) • omega))).mulVec acc) ∧
    (update L cfg s omega acc dt)._delta_P
        - (update L cfg (update L cfg s omega acc (dt / 2)) omega acc (dt / 2))._delta_P
      = (1 / 8 * dt ^ 2) • ((s._delta_R * (1 - L.Expmap ((dt / 2) • omega))).mulVec acc) := by
  have hR1 : (update L cfg s omega acc (dt / 2))._delta_R
      = s._delta_R * L.Expmap ((dt / 2) • omega) := by
    rw [update_delta_R, hN _ (hs.mul hRot)]
  refine ⟨?_, ?_, ?_, ?_⟩
  · rw [update_delta_time, update_delta_time, update_delta_time, add_assoc, add_halves]
  · rw [update_delta_R, update_delta_R, hR1, hE, ← Matrix.mul_assoc,
      hN _ ((hs.mul hRot).mul hRot)]
  · rw [update_delta_V, update_delta_V, update_delta_V, hR1, Matrix.mul_sub, Matrix.mul_one,
      Matrix.sub_mulVec]
    module
  · rw [update_delta_P, update_delta_P, update_delta_P, update_delta_V, hR1, Matrix.mul_sub,
      Matrix.mul_one, Matrix.sub_mulVec]
    module

/-- With zero acceleration the translational quantities stay zero. -/
theorem updates_zeroAcc_inv (L : SO3Lib K) (cfg : Settings K) (hS : L.skew 0 = 0)
    (us : List (Vec3 K × K)) :
    ∀ s : IMUPreintegrator K,
      s._delta_P = 0 → s._delta_V = 0 → s._J_P_Biasg = 0 → s._J_V_Biasg = 0 →
      blockOf s._cov_P_V_Phi 0 2 = 0 → blockOf s._cov_P_V_Phi 1 2 = 0 →
      blockOf s._cov_P_V_Phi 2 0 = 0 → blockOf s._cov_P_V_Phi 2 1 = 0 →
      (updates L cfg s (withAcc 0 us))._delta_P = 0 ∧
      (updates L cfg s (withAcc 0 us))._delta_V = 0 ∧
      (updates L cfg s (withAcc 0 us))._J_P_Biasg = 0 ∧
      (updates L cfg s (withAcc 0 us))._J_V_Biasg = 0 ∧
      blockOf (updates L cfg s (withAcc 0 us))._cov_P_V_Phi 0 2 = 0 ∧
      blockOf (updates L cfg s (withAcc 0 us))._cov_P_V_Phi 1 2 = 0 ∧
      blockOf (updates L cfg s (withAcc 0 us))._cov_P_V_Phi 2 0 = 0 ∧
      blockOf (updates L cfg s (withAcc 0 us))._cov_P_V_Phi 2 1 = 0 := by
  induction us with
  | nil => intro s h1 h2 h3 h4 h5 h6 h7 h8; exact ⟨h1, h2, h3, h4, h5, h6, h7, h8⟩
  | cons u us ih =>
    intro s h1 h2 h3 h4 h5 h6 h7 h8
    obtain ⟨c1, c2, c3, c4⟩ := update_cov_cross_blocks L cfg s u.1 0 u.2 hS h5 h6 h7 h8
    refine ih (update L cfg s u.1 0 u.2) ?_ ?_ ?_ ?_ c1 c2 c3 c4
    · rw [update_delta_P, h1, h2]; simp
    · rw [update_delta_V, h2]; simp
    · rw [update_J_P_Biasg, h3, h4, hS]; simp
    · rw [update_J_V_Biasg, h4, hS]; simp

theorem skewCross_zero : skewCross (0 : Vec3 K) = 0 := by
  ext i j
  fin_cases i <;> fin_cases j <;> simp [skewCross, Matrix.vecHead, Matrix.vecTail]

theorem demoNormalize_fixes (R : Mat33 ℚ) (hR : IsRotation R) :
    demoLib.normalizeRotationM R = R := by
  show demoNormalize R = R
  exact if_pos hR

theorem demoState_isRotation : IsRotation demoState._delta_R := by
  show IsRotation (!![0, -1, 0; 1, 0, 0; 0, 0, 1] : Mat33 ℚ)
  constructor
  · ext i j
    fin_cases i <;> fin_cases j <;>
      simp [Matrix.mul_apply, Fin.sum_univ_three, Matrix.vecHead, Matrix.vecTail]
  · simp [Matrix.det_fin_three]

theorem quarterTurn_half : quarterTurnLib.Expmap (((2 : ℚ) / 2) • ![0, 0, 1])
    = !![0, -1, 0; 1, 0, 0; 0, 0, 1] := by
  have h : ((2 : ℚ) / 2) • (![0, 0, 1] : Vec3 ℚ) = ![0, 0, 1] := by norm_num
  rw [h]
  simp [quarterTurnLib]

theorem quarterTurn_full : quarterTurnLib.Expmap ((2 : ℚ) • ![0, 0, 1])
    = !![-1, 0, 0; 0, -1, 0; 0, 0, 1] := by
  have h : (2 : ℚ) • (![0, 0, 1] : Vec3 ℚ) = ![0, 0, 2] := by norm_num
  have hne : (![0, 0, 2] : Vec3 ℚ) ≠ ![0, 0, 1] := by
    intro e
    have e2 := congrFun e 2
    norm_num at e2
  rw [h]
  simp [quarterTurnLib, hne]

theorem quarterTurn_square : quarterTurnLib.Expmap ((2 : ℚ) • ![0, 0, 1])
    = quarterTurnLib.Expmap (((2 : ℚ) / 2) • ![0, 0, 1])
      * quarterTurnLib.Expmap (((2 : ℚ) / 2) • ![0, 0, 1]) := by
  rw [quarterTurn_full, quarterTurn_half]
  ext i j
  fin_cases i <;> fin_cases j <;>
    simp [Matrix.mul_apply, Fin.sum_univ_three, Matrix.vecHead, Matrix.vecTail]

theorem quarterTurn_isRotation :
    IsRotation (quarterTurnLib.Expmap (((2 : ℚ) / 2) • ![0, 0, 1])) := by
  rw [quarterTurn_half]
  exact demoState_isRotation

/-- The rounding `fl` on known values: the binary64 number nearest `0.1`, an
exact value, two ties, a sign, and the classic `0.1 + 0.2 ≠ 0.3`. -/
theorem fl_examples :
    fl 0.1 = 3602879701896397 / 2 ^ 55 ∧ fl 1 = 1 ∧ fl (2 ^ 53 + 1) = 2 ^ 53 ∧
    fl (2 ^ 53 + 3) = 2 ^ 53 + 4 ∧ fl (-(1 / 3)) = -fl (1 / 3) ∧
    fl (fl 0.1 + fl 0.2) ≠ fl 0.3 := by
  decide!

theorem plainLib_Expmap_zero : plainLib.Expmap 0 = 1 := by
  show (1 : Mat33 ℚ) + skewCross 0 = 1
  rw [skewCross_zero, add_zero]

/-- In binary64 the ten free-fall steps give `deltaP` with x and y components
`0` and a z component within `0.01` of `4.905`, though not `4.905` itself: it
is the double just above the double `4.905`. -/
theorem freeFall_binary64 :
    (updatesD plainLib demoCfg (reset demoState)
      (List.replicate 10 (constAcc ![0, 0, fl 9.81] (fl 0.1))))._delta_P 0 = 0 ∧
    (updatesD plainLib demoCfg (reset demoState)
      (List.replicate 10 (constAcc ![0, 0, fl 9.81] (fl 0.1))))._delta_P 1 = 0 ∧
    |(updatesD plainLib demoCfg (reset demoState)
      (List.replicate 10 (constAcc ![0, 0, fl 9.81] (fl 0.1))))._delta_P 2 - 4.905| ≤ 0.01 ∧
    (updatesD plainLib demoCfg (reset demoState)
      (List.replicate 10 (constAcc ![0, 0, fl 9.81] (fl 0.1))))._delta_P 2 ≠ 4.905 ∧
    (updatesD plainLib demoCfg (reset demoState)
      (List.replicate 10 (constAcc ![0, 0, fl 9.81] (fl 0.1))))._delta_P 2
      = fl 4.905 + 1 / 2 ^ 50 := by
  decide!

/-- In binary64 the covariance after one zero-motion update of `0.005` from the
reset state has a negative quadratic form along `badDirection`. -/
theorem binary64_cov_quadratic_form_neg :
    ¬ 0 ≤ Matrix.dotProduct
      (badDirection (updateD plainLib demoCfg (reset demoState) 0 0 (fl 0.005))._cov_P_V_Phi)
      ((updateD plainLib demoCfg (reset demoState) 0 0 (fl 0.005))._cov_P_V_Phi.mulVec
        (badDirection
          (updateD plainLib demoCfg (reset demoState) 0 0 (fl 0.005))._cov_P_V_Phi)) := by
  decide!

/-- The entries of the binary64 covariance after one zero-motion update of
`0.005` from the reset state that decide its definiteness: each is one rounded
product, and the principal minor on rows 0 and 3 is negative. -/
theorem binary64_cov_entries :
    (updateD plainLib demoCfg (reset demoState) 0 0 (fl 0.005))._cov_P_V_Phi 0 0
      = fl (fl (0.5 * fl (fl 0.005 * fl 0.005)) * fl (0.5 * fl (fl 0.005 * fl 0.005))) ∧
    (updateD plainLib demoCfg (reset demoState) 0 0 (fl 0.005))._cov_P_V_Phi 3 3
      = fl (fl 0.005 * fl 0.005) ∧
    (updateD plainLib demoCfg (reset demoState) 0 0 (fl 0.005))._cov_P_V_Phi 0 3
      = fl (fl (0.5 * fl (fl 0.005 * fl 0.005)) * fl 0.005) ∧
    (updateD plainLib demoCfg (reset demoState) 0 0 (fl 0.005))._cov_P_V_Phi 3 0
      = fl (fl (0.5 * fl (fl 0.005 * fl 0.005)) * fl 0.005) ∧
    (updateD plainLib demoCfg (reset demoState) 0 0 (fl 0.005))._cov_P_V_Phi 0 0
        * (updateD plainLib demoCfg (reset demoState) 0 0 (fl 0.005))._cov_P_V_Phi 3 3
      < (updateD plainLib demoCfg (reset demoState) 0 0 (fl 0.005))._cov_P_V_Phi 0 3
        * (updateD plainLib demoCfg (reset demoState) 0 0 (fl 0.005))._cov_P_V_Phi 0 3 := by
  decide!

/-- The binary64 values behind the free-fall mismatch: after the ten steps
`deltaV_z` is the double `9.81` and `(-J_V_biasAcc·a)_z` is the double just
below it. -/
theorem binary64_freeFall_deltaV :
    (updatesD plainLib demoCfg (reset demoState)
        (withAcc ![0, 0, fl 9.81] (List.replicate 10 (0, fl 0.1))))._delta_V 2 = fl 9.81 ∧
    (-(mulVecD (updatesD plainLib demoCfg (reset demoState)
        (withAcc ![0, 0, fl 9.81] (List.replicate 10 (0, fl 0.1))))._J_V_Biasa
          ![0, 0, fl 9.81])) 2 = fl 9.81 - 1 / 2 ^ 49 := by
  decide!

/-- The binary64 elapsed times behind the half-step mismatch: `0.3 + 0.1` is
the double `0.4`, `(0.3 + 0.05) + 0.05` the double just below it. -/
theorem binary64_half_step_times :
    (updateD plainLib demoCfg runningState 0 0 (fl 0.1))._delta_time = fl 0.4 ∧
    (updateD plainLib demoCfg (updateD plainLib demoCfg runningState 0 0 (fl 0.1 / 2))
        0 0 (fl 0.1 / 2))._delta_time = fl 0.4 - 1 / 2 ^ 54 := by
  decide!

end Auxiliary

/-! ## The properties -/

section Properties

open IMUPreintegrator

variable {K : Type} [LinearOrderedField K]

/-- C1.  For every object `s`, `reset s` is the zero/identity state: the deltas
`P`, `V` are zero, `R` is the identity, the five bias Jacobians, the covariance
and the elapsed time are zero; it is the state the default constructor builds
(from whatever uninitialised members `raw`), and `reset` is idempotent. -/
theorem reset_identity_state (s raw : IMUPreintegrator K) :
    (reset s)._delta_P = 0 ∧ (reset s)._delta_V = 0 ∧ (reset s)._delta_R = 1 ∧
    (reset s)._J_P_Biasg = 0 ∧ (reset s)._J_P_Biasa = 0 ∧ (reset s)._J_V_Biasg = 0 ∧
    (reset s)._J_V_Biasa = 0 ∧ (reset s)._J_R_Biasg = 0 ∧
    (reset s)._cov_P_V_Phi = 0 ∧ (reset s)._delta_time = 0 ∧
    reset s = construct raw ∧ reset (reset s) = reset s :=
  ⟨rfl, rfl, rfl, rfl, rfl, rfl, rfl, rfl, rfl, rfl, rfl, rfl⟩

/-- C2.  The statement-by-statement update of the deltas and of the five bias
Jacobians equals the simultaneous update computed from the values `P`, `V`,
`R`, `JPg`, `JPa`, `JVg`, `JVa`, `JRg` the object held before the call: no
assignment reads a member already overwritten in the same call. -/
theorem update_from_snapshot (L : SO3Lib K) (cfg : Settings K) (s : IMUPreintegrator K)
    (omega acc : Vec3 K) (dt : K) :
    let P := s._delta_P
    let V := s._delta_V
    let R := s._delta_R
    let JPg := s._J_P_Biasg
    let JPa := s._J_P_Biasa
    let JVg := s._J_V_Biasg
    let JVa := s._J_V_Biasa
    let JRg := s._J_R_Biasg
    let dR := L.Expmap (dt • omega)
    let Jr := L.JacobianR (dt • omega)
    let s' := update L cfg s omega acc dt
    s'._delta_P = P + dt • V + (1 / 2 * dt ^ 2) • (R.mulVec acc) ∧
    s'._delta_V = V + dt • (R.mulVec acc) ∧
    s'._delta_R = L.normalizeRotationM (R * dR) ∧
    s'._J_P_Biasa = JPa + dt • JVa - (1 / 2 * dt ^ 2) • R ∧
    s'._J_P_Biasg = JPg + dt • JVg - (1 / 2 * dt ^ 2) • (R * L.skew acc * JRg) ∧
    s'._J_V_Biasa = JVa - dt • R ∧
    s'._J_V_Biasg = JVg - dt • (R * L.skew acc * JRg) ∧
    s'._J_R_Biasg = dR.transpose * JRg - dt • Jr := by
  intro P V R JPg JPa JVg JVa JRg dR Jr s'
  refine ⟨update_delta_P L cfg s omega acc dt, rfl, rfl, ?_, ?_, ?_, ?_, rfl⟩
  · show s._J_P_Biasa + (dt • s._J_V_Biasa - (dt * dt) • ((0.5 : K) • s._delta_R)) = _
    rw [half_lit, smul_smul, add_sub_assoc]
    congr 3; ring
  · show s._J_P_Biasg + (dt • s._J_V_Biasg
      - (dt * dt) • ((0.5 : K) • s._delta_R * L.skew acc * s._J_R_Biasg)) = _
    rw [half_lit, Matrix.smul_mul, Matrix.smul_mul, smul_smul, add_sub_assoc]
    congr 3; ring
  · show s._J_V_Biasa + dt • (-s._delta_R) = _
    rw [smul_neg, sub_eq_add_neg]
  · show s._J_V_Biasg + dt • (-s._delta_R * L.skew acc * s._J_R_Biasg) = _
    rw [Matrix.neg_mul, Matrix.neg_mul, smul_neg, sub_eq_add_neg]

/-- C3.  `update` sets the covariance to `A·cov·Aᵀ + Bg·GyrCov·Bgᵀ +
Ca·AccCov·Caᵀ`, where `cov` and `deltaR` are the values before the call and
`A`, `Bg`, `Ca` are the block matrices of the specification. -/
theorem update_covariance_formula (L : SO3Lib K) (cfg : Settings K) (s : IMUPreintegrator K)
    (omega acc : Vec3 K) (dt : K) :
    let A := specA s._delta_R (L.skew acc) (L.Expmap (dt • omega)) dt
    let Bg := specBg (L.JacobianR (dt • omega)) dt
    let Ca := specCa s._delta_R dt
    (update L cfg s omega acc dt)._cov_P_V_Phi
      = A * s._cov_P_V_Phi * A.transpose + Bg * cfg.GyrCov * Bg.transpose
        + Ca * cfg.AccCov * Ca.transpose :=
  update_cov L cfg s omega acc dt

/-- C4.  Time additivity: after any sequence of updates applied to the reset
state the elapsed time is the sum of the durations, and every single update
adds exactly its `dt`. -/
theorem elapsed_time_additive (L : SO3Lib K) (cfg : Settings K) (s0 : IMUPreintegrator K)
    (us : List (Sample K)) :
    (updates L cfg (reset s0) us)._delta_time = (us.map fun u => u.2.2).sum ∧
    ∀ (s : IMUPreintegrator K) (omega acc : Vec3 K) (dt : K),
      (update L cfg s omega acc dt)._delta_time = s._delta_time + dt := by
  refine ⟨?_, fun s omega acc dt => rfl⟩
  rw [updates_delta_time]
  show (0 : K) + _ = _
  rw [zero_add]

/-- C5, as amended.  Covariance PSD invariant in exact arithmetic: with
symmetric PSD noise covariances and every operation of `update` carried out
without rounding, `reset` establishes "the covariance is symmetric PSD", every
`update` preserves it, and so it holds after every sequence of updates from the
reset state. -/
theorem covariance_symm_psd (L : SO3Lib K) (cfg : Settings K)
    (hG : IsSymmPSD cfg.GyrCov) (hA : IsSymmPSD cfg.AccCov) (s0 : IMUPreintegrator K)
    (us : List (Sample K)) :
    IsSymmPSD (reset s0)._cov_P_V_Phi ∧
    (∀ (s : IMUPreintegrator K) (omega acc : Vec3 K) (dt : K),
      IsSymmPSD s._cov_P_V_Phi → IsSymmPSD (update L cfg s omega acc dt)._cov_P_V_Phi) ∧
    IsSymmPSD (updates L cfg (reset s0) us)._cov_P_V_Phi :=
  ⟨isSymmPSD_zero, fun s omega acc dt hs => update_cov_psd L cfg hG hA s hs omega acc dt,
    updates_cov_psd L cfg hG hA us _ isSymmPSD_zero⟩


/-- The PSD invariant on two concrete rational samples with unit noise covariances. -/
theorem covariance_symm_psd_witness :
    IsSymmPSD demoCfg.GyrCov ∧ IsSymmPSD demoCfg.AccCov ∧
    IsSymmPSD (updates demoLib demoCfg (reset demoState)
      [(![0, 0, 1], ![0, 0, 981 / 100], 1 / 10), (![1, 0, 0], ![1, 2, 3], 1 / 5)])._cov_P_V_Phi :=
  ⟨isSymmPSD_one, isSymmPSD_one,
    (covariance_symm_psd demoLib demoCfg isSymmPSD_one isSymmPSD_one demoState _).2.2⟩
/-- C5, as stated, fails on the doubles the code computes: with unit noise
covariances (symmetric PSD), the covariance after one `update(0, 0, 0.005)`
from the reset state, in binary64, is not positive-semidefinite; its quadratic
form is negative along `badDirection`, since `cov₀₀·cov₃₃ < cov₀₃²` there. -/
theorem covariance_symm_psd_counterexample :
    IsSymmPSD demoCfg.GyrCov ∧ IsSymmPSD demoCfg.AccCov ∧
    ¬ IsSymmPSD
      (updatesD plainLib demoCfg (reset demoState) [zeroMotion (fl 0.005)])._cov_P_V_Phi :=
  ⟨isSymmPSD_one, isSymmPSD_one, fun h => binary64_cov_quadratic_form_neg (h.2 _)⟩

/-- C6.  Rotation validity: if `normalizeRotationM` always returns a rotation,
then `deltaR` is a rotation after the constructor, after `reset`, and after
every sequence of updates from either. -/
theorem delta_R_is_rotation (L : SO3Lib K) (cfg : Settings K)
    (hN : ∀ M : Mat33 K, IsRotation (L.normalizeRotationM M)) (raw s0 : IMUPreintegrator K)
    (us : List (Sample K)) :
    IsRotation (construct raw)._delta_R ∧ IsRotation (reset s0)._delta_R ∧
    IsRotation (updates L cfg (construct raw) us)._delta_R ∧
    IsRotation (updates L cfg (reset s0) us)._delta_R :=
  ⟨isRotation_one, isRotation_one, updates_isRotation L cfg hN us _ isRotation_one,
    updates_isRotation L cfg hN us _ isRotation_one⟩


/-- Rotation validity on two concrete rational samples with `demoNormalize`. -/
theorem delta_R_is_rotation_witness :
    (∀ M : Mat33 ℚ, IsRotation (demoLib.normalizeRotationM M)) ∧
    IsRotation (updates demoLib demoCfg (reset demoState)
      [(![0, 0, 1], ![0, 0, 981 / 100], 1 / 10), (![1, 0, 0], ![1, 2, 3], 1 / 5)])._delta_R :=
  ⟨demoNormalize_isRotation,
    (delta_R_is_rotation demoLib demoCfg demoNormalize_isRotation demoState demoState _).2.2.2⟩
/-- C7.  Zero-motion invariance: if `Expmap 0 = I` and `normalizeRotationM I = I`,
then after `n` calls `update(0, 0, dt)` from the reset state `deltaR = I`,
`deltaV = 0` and `deltaP = 0`, for every `dt` (in particular every `dt > 0`). -/
theorem zero_motion_deltas (L : SO3Lib K) (cfg : Settings K) (hE : L.Expmap 0 = 1)
    (hN : L.normalizeRotationM 1 = 1) (s0 : IMUPreintegrator K) (dt : K) (n : Nat) :
    (updates L cfg (reset s0) (List.replicate n (zeroMotion dt)))._delta_R = 1 ∧
    (updates L cfg (reset s0) (List.replicate n (zeroMotion dt)))._delta_V = 0 ∧
    (updates L cfg (reset s0) (List.replicate n (zeroMotion dt)))._delta_P = 0 := by
  obtain ⟨hR, hV, hP, _⟩ := constAcc_state L cfg hE hN s0 0 dt n
  exact ⟨hR, by rw [show zeroMotion dt = constAcc 0 dt from rfl, hV, smul_zero],
    by rw [show zeroMotion dt = constAcc 0 dt from rfl, hP, smul_zero]⟩


/-- Zero-motion invariance evaluated for three steps of `dt = 1/10`. -/
theorem zero_motion_deltas_witness :
    demoLib.Expmap 0 = 1 ∧ demoLib.normalizeRotationM 1 = 1 ∧
    (updates demoLib demoCfg (reset demoState) (List.replicate 3 (zeroMotion (1 / 10))))._delta_R
      = 1 ∧
    (updates demoLib demoCfg (reset demoState) (List.replicate 3 (zeroMotion (1 / 10))))._delta_V
      = 0 ∧
    (updates demoLib demoCfg (reset demoState) (List.replicate 3 (zeroMotion (1 / 10))))._delta_P
      = 0 :=
  ⟨demoLib_Expmap_zero, demoNormalize_one,
    zero_motion_deltas demoLib demoCfg demoLib_Expmap_zero demoNormalize_one demoState (1 / 10) 3⟩
/-- C8, as amended.  Zero-motion covariance monotonicity in exact arithmetic:
with symmetric PSD noise covariances, `Expmap 0 = I` and
`normalizeRotationM I = I`, and every operation of `update` carried out without
rounding, under repeated `update(0, 0, dt)` from the reset state the covariance
after step `n+1` minus the covariance after step `n` is symmetric PSD; hence
every diagonal entry and the trace are non-decreasing in `n`.  (This holds for
every `dt`.) -/
theorem zero_motion_cov_monotone (L : SO3Lib K) (cfg : Settings K)
    (hG : IsSymmPSD cfg.GyrCov) (hA : IsSymmPSD cfg.AccCov) (hE : L.Expmap 0 = 1)
    (hN : L.normalizeRotationM 1 = 1) (s0 : IMUPreintegrator K) (dt : K) (n : Nat) :
    IsSymmPSD
      ((updates L cfg (reset s0) (List.replicate (n + 1) (zeroMotion dt)))._cov_P_V_Phi
        - (updates L cfg (reset s0) (List.replicate n (zeroMotion dt)))._cov_P_V_Phi) ∧
    (∀ i : Fin 9,
      (updates L cfg (reset s0) (List.replicate n (zeroMotion dt)))._cov_P_V_Phi i i
        ≤ (updates L cfg (reset s0) (List.replicate (n + 1) (zeroMotion dt)))._cov_P_V_Phi i i) ∧
    (updates L cfg (reset s0) (List.replicate n (zeroMotion dt)))._cov_P_V_Phi.trace
      ≤ (updates L cfg (reset s0) (List.replicate (n + 1) (zeroMotion dt)))._cov_P_V_Phi.trace := by
  have h := zeroMotion_cov_diff_psd L cfg hG hA hE hN s0 dt n
  have hd : ∀ i : Fin 9,
      (updates L cfg (reset s0) (List.replicate n (zeroMotion dt)))._cov_P_V_Phi i i
        ≤ (updates L cfg (reset s0) (List.replicate (n + 1) (zeroMotion dt)))._cov_P_V_Phi i i :=
    fun i => sub_nonneg.mp (by simpa using h.diag_nonneg i)
  exact ⟨h, hd, Finset.sum_le_sum fun i _ => hd i⟩


/-- Growth of the covariance between the second and the third zero-motion step, `dt = 1/10`. -/
theorem zero_motion_cov_monotone_witness :
    IsSymmPSD demoCfg.GyrCov ∧ IsSymmPSD demoCfg.AccCov ∧
    demoLib.Expmap 0 = 1 ∧ demoLib.normalizeRotationM 1 = 1 ∧
    IsSymmPSD
      ((updates demoLib demoCfg (reset demoState)
          (List.replicate (2 + 1) (zeroMotion (1 / 10))))._cov_P_V_Phi
        - (updates demoLib demoCfg (reset demoState)
          (List.replicate 2 (zeroMotion (1 / 10))))._cov_P_V_Phi) :=
  ⟨isSymmPSD_one, isSymmPSD_one, demoLib_Expmap_zero, demoNormalize_one,
    (zero_motion_cov_monotone demoLib demoCfg isSymmPSD_one isSymmPSD_one demoLib_Expmap_zero
      demoNormalize_one demoState (1 / 10) 2).1⟩
/-- C8, as stated, fails on the doubles the code computes, already at `n = 0`:
with unit noise covariances and utilities with `Expmap 0 = I`, `skew 0 = 0`,
`normalizeRotationM I = I`, the covariance after the first `update(0, 0, 0.005)`
from the reset state minus the covariance before it, in binary64, is not
positive-semidefinite. -/
theorem zero_motion_cov_monotone_counterexample :
    IsSymmPSD demoCfg.GyrCov ∧ IsSymmPSD demoCfg.AccCov ∧
    plainLib.Expmap 0 = 1 ∧ plainLib.skew 0 = 0 ∧ plainLib.normalizeRotationM 1 = 1 ∧
    (0 : ℚ) < fl 0.005 ∧
    ¬ IsSymmPSD
      ((updatesD plainLib demoCfg (reset demoState)
          (List.replicate (0 + 1) (zeroMotion (fl 0.005))))._cov_P_V_Phi
        - (updatesD plainLib demoCfg (reset demoState)
          (List.replicate 0 (zeroMotion (fl 0.005))))._cov_P_V_Phi) := by
  refine ⟨isSymmPSD_one, isSymmPSD_one, plainLib_Expmap_zero, skewCross_zero, rfl,
    by decide!, fun h => ?_⟩
  have h2 := h.2 (badDirection (updatesD plainLib demoCfg (reset demoState)
    (List.replicate (0 + 1) (zeroMotion (fl 0.005))))._cov_P_V_Phi)
  revert h2
  decide!

/-- C9.  Half-turn scenario: with `Expmap` the SO(3) exponential and
`normalizeRotationM` fixing rotation matrices, one `update([0,0,π], [0,0,0], 1)`
from the reset state gives `deltaR = diag(-1,-1,1)` (the rotation by 180° about
the z-axis), `deltaP = 0`, `deltaV = 0` and elapsed time `1`. -/
theorem half_turn_scenario (L : SO3Lib ℝ) (cfg : Settings ℝ) (hE : IsSO3Exp L.Expmap)
    (hN : ∀ R : Mat33 ℝ, IsRotation R → L.normalizeRotationM R = R)
    (s0 : IMUPreintegrator ℝ) :
    (update L cfg (reset s0) ![0, 0, Real.pi] ![0, 0, 0] 1)._delta_R
      = !![-1, 0, 0; 0, -1, 0; 0, 0, 1] ∧
    (update L cfg (reset s0) ![0, 0, Real.pi] ![0, 0, 0] 1)._delta_P = 0 ∧
    (update L cfg (reset s0) ![0, 0, Real.pi] ![0, 0, 0] 1)._delta_V = 0 ∧
    (update L cfg (reset s0) ![0, 0, Real.pi] ![0, 0, 0] 1)._delta_time = 1 := by
  have hz : (![0, 0, 0] : Vec3 ℝ) = 0 := by
    funext i; fin_cases i <;> rfl
  refine ⟨?_, ?_, ?_, ?_⟩
  · rw [update_delta_R, one_smul, hE, rodrigues_half_turn]
    show L.normalizeRotationM (1 * _) = _
    rw [Matrix.one_mul, hN _ isRotation_half_turn]
  · rw [update_delta_P, hz, Matrix.mulVec_zero, smul_zero, add_zero]
    show (0 : Vec3 ℝ) + (1 : ℝ) • (0 : Vec3 ℝ) = 0
    rw [smul_zero, add_zero]
  · rw [update_delta_V, hz, Matrix.mulVec_zero, smul_zero, add_zero]
    rfl
  · rw [update_delta_time]
    show (0 : ℝ) + 1 = 1
    rw [zero_add]


/-- The half turn with the Rodrigues exponential and the identity as renormalisation. -/
theorem half_turn_scenario_witness :
    IsSO3Exp (fun v : Vec3 ℝ =>
      rodrigues (Real.sin (Real.sqrt (Matrix.dotProduct v v)))
        (Real.cos (Real.sqrt (Matrix.dotProduct v v))) (Real.sqrt (Matrix.dotProduct v v))
        (skewCross v)) ∧
    (∀ R : Mat33 ℝ, IsRotation R → (fun M : Mat33 ℝ => M) R = R) ∧
    (update
      (SO3Lib.mk
        (fun v : Vec3 ℝ =>
          rodrigues (Real.sin (Real.sqrt (Matrix.dotProduct v v)))
            (Real.cos (Real.sqrt (Matrix.dotProduct v v))) (Real.sqrt (Matrix.dotProduct v v))
            (skewCross v))
        (fun _ => 1) skewCross (fun M : Mat33 ℝ => M))
      (Settings.mk 1 1) (reset (IMUPreintegrator.mk 0 0 1 0 0 0 0 0 0 0))
      ![0, 0, Real.pi] ![0, 0, 0] 1)._delta_R = !![-1, 0, 0; 0, -1, 0; 0, 0, 1] :=
  ⟨fun _ => rfl, fun _ _ => rfl,
    (half_turn_scenario _ _ (fun _ => rfl) (fun _ _ => rfl) _).1⟩
/-- C10.  Constant-acceleration accumulation: if `Expmap 0 = I` and
`normalizeRotationM I = I`, then `N` calls `update(0, a, dt)` from the reset
state give `deltaV = N·dt·a`, `deltaP = ½·(N·dt)²·a`, `deltaR = I` and elapsed
time `N·dt`; for `a = [0,0,9.81]`, `dt = 0.1`, `N = 10` this is
`deltaV = [0,0,9.81]` and elapsed time `1`. -/
theorem const_acc_accumulation (L : SO3Lib K) (cfg : Settings K) (hE : L.Expmap 0 = 1)
    (hN : L.normalizeRotationM 1 = 1) (s0 : IMUPreintegrator K) (a : Vec3 K) (dt : K)
    (N : Nat) :
    ((updates L cfg (reset s0) (List.replicate N (constAcc a dt)))._delta_V
        = ((N : K) * dt) • a ∧
      (updates L cfg (reset s0) (List.replicate N (constAcc a dt)))._delta_P
        = (1 / 2 * ((N : K) * dt) ^ 2) • a ∧
      (updates L cfg (reset s0) (List.replicate N (constAcc a dt)))._delta_R = 1 ∧
      (updates L cfg (reset s0) (List.replicate N (constAcc a dt)))._delta_time
        = (N : K) * dt) ∧
    (updates L cfg (reset s0) (List.replicate 10 (constAcc ![0, 0, 9.81] 0.1)))._delta_V
      = ![0, 0, 9.81] ∧
    (updates L cfg (reset s0) (List.replicate 10 (constAcc ![0, 0, 9.81] 0.1)))._delta_time
      = 1 := by
  obtain ⟨hR, hV, hP, hT⟩ := constAcc_state L cfg hE hN s0 a dt N
  obtain ⟨_, hV10, _, hT10⟩ := constAcc_state L cfg hE hN s0 ![0, 0, 9.81] 0.1 10
  refine ⟨⟨hV, hP, hR, hT⟩, ?_, ?_⟩
  · rw [hV10]
    funext i
    fin_cases i <;> simp
    norm_num
  · rw [hT10]
    norm_num

/-- Ten steps of `dt = 0.1` under `a = [0,0,9.81]` with the rational stand-ins. -/
theorem const_acc_accumulation_witness :
    demoLib.Expmap 0 = 1 ∧ demoLib.normalizeRotationM 1 = 1 ∧
    (updates demoLib demoCfg (reset demoState)
      (List.replicate 10 (constAcc ![0, 0, 9.81] 0.1)))._delta_V = ![0, 0, 9.81] ∧
    (updates demoLib demoCfg (reset demoState)
      (List.replicate 10 (constAcc ![0, 0, 9.81] 0.1)))._delta_time = 1 :=
  ⟨demoLib_Expmap_zero, demoNormalize_one,
    (const_acc_accumulation demoLib demoCfg demoLib_Expmap_zero demoNormalize_one demoState
      ![0, 0, 9.81] 0.1 10).2⟩

/-- C11, as amended.  Free-fall scenario position: if `Expmap 0 = I` and
`normalizeRotationM I = I`, then after ten calls
`update([0,0,0], [0,0,9.81], 0.1)` from the reset state `deltaP` is
approximately `[0, 0, 4.905]`: its x and y components are `0` and its z
component lies within `0.01` of `4.905`. -/
theorem free_fall_position (L : SO3Lib K) (cfg : Settings K) (hE : L.Expmap 0 = 1)
    (hN : L.normalizeRotationM 1 = 1) (s0 : IMUPreintegrator K) :
    (updates L cfg (reset s0) (List.replicate 10 (constAcc ![0, 0, 9.81] 0.1)))._delta_P 0 = 0 ∧
    (updates L cfg (reset s0) (List.replicate 10 (constAcc ![0, 0, 9.81] 0.1)))._delta_P 1 = 0 ∧
    |(updates L cfg (reset s0) (List.replicate 10 (constAcc ![0, 0, 9.81] 0.1)))._delta_P 2
      - 4.905| ≤ 0.01 := by
  rw [freeFall_delta_P L cfg hE hN s0]
  refine ⟨rfl, rfl, ?_⟩
  show |(4.905 : K) - 4.905| ≤ 0.01
  rw [sub_self, abs_zero]
  norm_num

/-- The amended free-fall position evaluated with the rational stand-ins. -/
theorem free_fall_position_witness :
    demoLib.Expmap 0 = 1 ∧ demoLib.normalizeRotationM 1 = 1 ∧
    |(updates demoLib demoCfg (reset demoState)
      (List.replicate 10 (constAcc ![0, 0, 9.81] 0.1)))._delta_P 2 - 4.905| ≤ 0.01 :=
  ⟨demoLib_Expmap_zero, demoNormalize_one,
    (free_fall_position demoLib demoCfg demoLib_Expmap_zero demoNormalize_one demoState).2.2⟩

/-- C11, as stated, fails: after the ten free-fall steps the z component of
`deltaP` is `4.905`, which is not within `0.01` of `0.49`. -/
theorem free_fall_position_counterexample :
    ¬ ((updates demoLib demoCfg (reset demoState)
          (List.replicate 10 (constAcc ![0, 0, 9.81] 0.1)))._delta_P 0 = 0 ∧
        (updates demoLib demoCfg (reset demoState)
          (List.replicate 10 (constAcc ![0, 0, 9.81] 0.1)))._delta_P 1 = 0 ∧
        |(updates demoLib demoCfg (reset demoState)
          (List.replicate 10 (constAcc ![0, 0, 9.81] 0.1)))._delta_P 2 - 0.49| ≤ 0.01) := by
  rw [freeFall_delta_P demoLib demoCfg demoLib_Expmap_zero demoNormalize_one demoState]
  intro h
  have h2 : |(4.905 : ℚ) - 0.49| ≤ 0.01 := h.2.2
  rw [abs_le] at h2
  norm_num at h2

/-- C12.  Orientation depends only on gyroscope data: two update sequences
from the same state with the same `(omega, dt)` at every step, whatever their
accelerations, end with the same `deltaR`, `J_R_biasGyro` and elapsed time. -/
theorem orientation_ignores_acc (L : SO3Lib K) (cfg : Settings K) (s : IMUPreintegrator K)
    (us vs : List (Sample K)) (h : us.map gyroPart = vs.map gyroPart) :
    (updates L cfg s us)._delta_R = (updates L cfg s vs)._delta_R ∧
    (updates L cfg s us)._J_R_Biasg = (updates L cfg s vs)._J_R_Biasg ∧
    (updates L cfg s us)._delta_time = (updates L cfg s vs)._delta_time :=
  updates_gyro_only L cfg us vs s s h rfl rfl rfl

/-- Two runs with equal gyroscope data and different accelerations. -/
theorem orientation_ignores_acc_witness :
    List.map gyroPart [((![0, 0, 1], ![0, 0, 981 / 100], 1 / 10) : Sample ℚ),
        (![1, 0, 0], ![1, 2, 3], 1 / 5)]
      = List.map gyroPart [((![0, 0, 1], ![5, 0, 0], 1 / 10) : Sample ℚ),
        (![1, 0, 0], ![0, 0, 0], 1 / 5)] ∧
    (updates demoLib demoCfg demoState
        [(![0, 0, 1], ![0, 0, 981 / 100], 1 / 10), (![1, 0, 0], ![1, 2, 3], 1 / 5)])._delta_R
      = (updates demoLib demoCfg demoState
        [(![0, 0, 1], ![5, 0, 0], 1 / 10), (![1, 0, 0], ![0, 0, 0], 1 / 5)])._delta_R :=
  ⟨rfl, (orientation_ignores_acc demoLib demoCfg demoState _ _ rfl).1⟩

/-- C14.  Elapsed-time invariant: for a sequence of updates with every
`dt > 0` from the reset state, the elapsed time after any number `k` of steps
is `≥ 0`, it does not decrease from step `k` to step `k+1`, and each step
performed strictly increases it, so no update brings it back to zero. -/
theorem elapsed_time_monotone (L : SO3Lib K) (cfg : Settings K) (s0 : IMUPreintegrator K)
    (us : List (Sample K)) (hpos : ∀ u ∈ us, 0 < u.2.2) :
    (∀ k : Nat, 0 ≤ (updates L cfg (reset s0) (us.take k))._delta_time) ∧
    (∀ k : Nat, (updates L cfg (reset s0) (us.take k))._delta_time
      ≤ (updates L cfg (reset s0) (us.take (k + 1)))._delta_time) ∧
    (∀ k : Nat, k < us.length →
      (updates L cfg (reset s0) (us.take k))._delta_time
        < (updates L cfg (reset s0) (us.take (k + 1)))._delta_time ∧
      (updates L cfg (reset s0) (us.take (k + 1)))._delta_time ≠ 0) := by
  have h0 : ∀ k : Nat, 0 ≤ (updates L cfg (reset s0) (us.take k))._delta_time := fun k =>
    updates_time_nonneg L cfg _ (le_refl (0 : K)) _ fun u hu =>
      hpos u (List.mem_of_mem_take hu)
  have hlt : ∀ k : Nat, k < us.length →
      (updates L cfg (reset s0) (us.take k))._delta_time
        < (updates L cfg (reset s0) (us.take (k + 1)))._delta_time := by
    intro k hk
    rw [updates_take_succ_time L cfg _ us k hk]
    exact lt_add_of_pos_right _ (hpos _ (List.get_mem us k hk))
  refine ⟨h0, fun k => ?_, fun k hk => ⟨hlt k hk, ne_of_gt (lt_of_le_of_lt (h0 k) (hlt k hk))⟩⟩
  by_cases hk : k < us.length
  · exact (hlt k hk).le
  · rw [List.take_of_length_le (not_lt.mp hk),
      List.take_of_length_le (le_trans (not_lt.mp hk) (Nat.le_succ k))]

/-- The elapsed time over two concrete steps of positive duration. -/
theorem elapsed_time_monotone_witness :
    (∀ u ∈ [((![0, 0, 1], ![0, 0, 981 / 100], 1 / 10) : Sample ℚ),
        (![1, 0, 0], ![1, 2, 3], 1 / 5)], 0 < u.2.2) ∧
    (updates demoLib demoCfg (reset demoState)
        (List.take 1 [(![0, 0, 1], ![0, 0, 981 / 100], 1 / 10),
          (![1, 0, 0], ![1, 2, 3], 1 / 5)]))._delta_time
      ≤ (updates demoLib demoCfg (reset demoState)
        (List.take (1 + 1) [(![0, 0, 1], ![0, 0, 981 / 100], 1 / 10),
          (![1, 0, 0], ![1, 2, 3], 1 / 5)]))._delta_time :=
  have hpos : ∀ u ∈ [((![0, 0, 1], ![0, 0, 981 / 100], 1 / 10) : Sample ℚ),
      (![1, 0, 0], ![1, 2, 3], 1 / 5)], 0 < u.2.2 := by
    intro u hu
    simp only [List.mem_cons, List.mem_singleton, List.not_mem_nil, or_false] at hu
    rcases hu with rfl | rfl <;> norm_num
  ⟨hpos, (elapsed_time_monotone demoLib demoCfg demoState _ hpos).2.1 1⟩

/-- C15.  `update` validates nothing and never fails: for every object and
every `(omega, acc, dt)`, also `dt = 0` and `dt < 0`, it returns a new object
whose elapsed time is the old one plus `dt`; applied to the reset state the
elapsed time is `dt` itself, negative when `dt` is. -/
theorem update_never_rejects (L : SO3Lib K) (cfg : Settings K) (s s0 : IMUPreintegrator K)
    (omega acc : Vec3 K) (dt : K) :
    (∃ s' : IMUPreintegrator K, update L cfg s omega acc dt = s') ∧
    (update L cfg s omega acc dt)._delta_time = s._delta_time + dt ∧
    (update L cfg s omega acc 0)._delta_time = s._delta_time ∧
    (update L cfg (reset s0) omega acc dt)._delta_time = dt ∧
    (dt < 0 → (update L cfg (reset s0) omega acc dt)._delta_time < 0) := by
  have h : (update L cfg (reset s0) omega acc dt)._delta_time = dt := by
    rw [update_delta_time]
    show (0 : K) + dt = dt
    rw [zero_add]
  refine ⟨⟨_, rfl⟩, rfl, ?_, h, fun hdt => ?_⟩
  · rw [update_delta_time, add_zero]
  · rw [h]; exact hdt

/-- A negative duration on the reset state gives a negative elapsed time. -/
theorem update_never_rejects_witness :
    ((-1 : ℚ) < 0) ∧
    (update demoLib demoCfg (reset demoState) ![0, 0, 1] ![0, 0, 981 / 100] (-1))._delta_time
      < 0 :=
  ⟨by norm_num,
    (update_never_rejects demoLib demoCfg demoState demoState ![0, 0, 1] ![0, 0, 981 / 100]
      (-1)).2.2.2.2 (by norm_num)⟩

/-- C16, as amended.  In exact arithmetic (every operation of `update` carried
out without rounding) the accelerometer-bias Jacobians reproduce the deltas
under constant acceleration: after any sequence of updates from the reset state with
arbitrary `(omega, dt)` per step and one acceleration `a` at every step,
`deltaV = -J_V_biasAcc·a` and `deltaP = -J_P_biasAcc·a`. -/
theorem acc_jacobians_reproduce_deltas (L : SO3Lib K) (cfg : Settings K)
    (s0 : IMUPreintegrator K) (a : Vec3 K) (us : List (Vec3 K × K)) :
    (updates L cfg (reset s0) (withAcc a us))._delta_V
      = -((updates L cfg (reset s0) (withAcc a us))._J_V_Biasa.mulVec a) ∧
    (updates L cfg (reset s0) (withAcc a us))._delta_P
      = -((updates L cfg (reset s0) (withAcc a us))._J_P_Biasa.mulVec a) := by
  refine updates_withAcc_jacobians L cfg a us (reset s0) ?_ ?_
  · show (0 : Vec3 K) = -((0 : Mat33 K).mulVec a)
    rw [Matrix.zero_mulVec, neg_zero]
  · show (0 : Vec3 K) = -((0 : Mat33 K).mulVec a)
    rw [Matrix.zero_mulVec, neg_zero]

/-- C16, as stated, fails on the doubles the code computes.  After the spec's
ten free-fall steps (`a = [0,0,9.81]`, `dt = 0.1`) from the reset state, and
also after three steps of `0.0625`, `0.125`, `0.125` (where every product
`a·dt` is exact), the z component of `deltaV` in binary64 differs from that of
`-J_V_biasAcc·a`, whether this product is taken in binary64 or exactly. -/
theorem acc_jacobians_reproduce_deltas_counterexample :
    ((updatesD plainLib demoCfg (reset demoState)
        (withAcc ![0, 0, fl 9.81] (List.replicate 10 (0, fl 0.1))))._delta_V 2
      ≠ (-(mulVecD (updatesD plainLib demoCfg (reset demoState)
        (withAcc ![0, 0, fl 9.81] (List.replicate 10 (0, fl 0.1))))._J_V_Biasa
          ![0, 0, fl 9.81])) 2 ∧
    (updatesD plainLib demoCfg (reset demoState)
        (withAcc ![0, 0, fl 9.81] (List.replicate 10 (0, fl 0.1))))._delta_V 2
      ≠ (-((updatesD plainLib demoCfg (reset demoState)
        (withAcc ![0, 0, fl 9.81] (List.replicate 10 (0, fl 0.1))))._J_V_Biasa.mulVec
          ![0, 0, fl 9.81])) 2) ∧
    ((updatesD plainLib demoCfg (reset demoState)
        (withAcc ![0, 0, fl 9.81] [(0, 0.0625), (0, 0.125), (0, 0.125)]))._delta_V 2
      ≠ (-(mulVecD (updatesD plainLib demoCfg (reset demoState)
        (withAcc ![0, 0, fl 9.81] [(0, 0.0625), (0, 0.125), (0, 0.125)]))._J_V_Biasa
          ![0, 0, fl 9.81])) 2 ∧
    (updatesD plainLib demoCfg (reset demoState)
        (withAcc ![0, 0, fl 9.81] [(0, 0.0625), (0, 0.125), (0, 0.125)]))._delta_V 2
      ≠ (-((updatesD plainLib demoCfg (reset demoState)
        (withAcc ![0, 0, fl 9.81] [(0, 0.0625), (0, 0.125), (0, 0.125)]))._J_V_Biasa.mulVec
          ![0, 0, fl 9.81])) 2) := by
  decide!

/-- C13, as amended.  One step versus two half steps, in exact arithmetic:
for a state whose `deltaR` is a rotation and constant `(omega, acc)`, if
`Expmap(omega·dt/2)` is a rotation with
`Expmap(omega·dt) = Expmap(omega·dt/2)²` and `normalizeRotationM` fixes
rotations, then one update of `dt` and two updates of `dt/2` agree exactly in
elapsed time and `deltaR`, while
`ΔV = deltaR·(I − Expmap(omega·dt/2))·acc·dt/2` and
`ΔP = ⅛·deltaR·(I − Expmap(omega·dt/2))·acc·dt²`; both vanish when
`omega = 0`.  (This holds for every `dt`, in particular `dt > 0`.) -/
theorem one_step_vs_two_half_steps (L : SO3Lib K) (cfg : Settings K) (s : IMUPreintegrator K)
    (hs : IsRotation s._delta_R) (omega acc : Vec3 K) (dt : K)
    (hRot : IsRotation (L.Expmap ((dt / 2) • omega)))
    (hE : L.Expmap (dt • omega) = L.Expmap ((dt / 2) • omega) * L.Expmap ((dt / 2) • omega))
    (hN : ∀ R : Mat33 K, IsRotation R → L.normalizeRotationM R = R) :
    (update L cfg s omega acc dt)._delta_time
      = (update L cfg (update L cfg s omega acc (dt / 2)) omega acc (dt / 2))._delta_time ∧
    (update L cfg s omega acc dt)._delta_R
      = (update L cfg (update L cfg s omega acc (dt / 2)) omega acc (dt / 2))._delta_R ∧
    (update L cfg s omega acc dt)._delta_V
        - (update L cfg (update L cfg s omega acc (dt / 2)) omega acc (dt / 2))._delta_V
      = (dt / 2) • ((s._delta_R * (1 - L.Expmap ((dt / 2) • omega))).mulVec acc) ∧
    (update L cfg s omega acc dt)._delta_P
        - (update L cfg (update L cfg s omega acc (dt / 2)) omega acc (dt / 2))._delta_P
      = (1 / 8 * dt ^ 2) • ((s._delta_R * (1 - L.Expmap ((dt / 2) • omega))).mulVec acc) ∧
    (omega = 0 →
      (update L cfg s omega acc dt)._delta_V
          - (update L cfg (update L cfg s omega acc (dt / 2)) omega acc (dt / 2))._delta_V = 0 ∧
      (update L cfg s omega acc dt)._delta_P
          - (update L cfg (update L cfg s omega acc (dt / 2)) omega acc (dt / 2))._delta_P
        = 0) := by
  obtain ⟨hT, hR, hV, hP⟩ := half_steps_compare L cfg s hs omega acc dt hRot hE hN
  refine ⟨hT, hR, hV, hP, fun h0 => ?_⟩
  subst h0
  rw [smul_zero] at hRot hE
  rw [smul_zero] at hE
  have h1 : L.Expmap ((dt / 2) • (0 : Vec3 K)) = 1 := by
    rw [smul_zero]; exact hRot.eq_one_of_idempotent hE
  rw [hV, hP, h1, sub_self, Matrix.mul_zero, Matrix.zero_mulVec, smul_zero, smul_zero]
  exact ⟨rfl, rfl⟩

/-- One step of `dt = 2` against two steps of `dt = 1` with the quarter-turn utilities. -/
theorem one_step_vs_two_half_steps_witness :
    IsRotation demoState._delta_R ∧
    IsRotation (quarterTurnLib.Expmap (((2 : ℚ) / 2) • ![0, 0, 1])) ∧
    quarterTurnLib.Expmap ((2 : ℚ) • ![0, 0, 1])
      = quarterTurnLib.Expmap (((2 : ℚ) / 2) • ![0, 0, 1])
        * quarterTurnLib.Expmap (((2 : ℚ) / 2) • ![0, 0, 1]) ∧
    (∀ R : Mat33 ℚ, IsRotation R → quarterTurnLib.normalizeRotationM R = R) ∧
    (update quarterTurnLib demoCfg demoState ![0, 0, 1] ![1, 0, 0] 2)._delta_R
      = (update quarterTurnLib demoCfg
          (update quarterTurnLib demoCfg demoState ![0, 0, 1] ![1, 0, 0] (2 / 2))
          ![0, 0, 1] ![1, 0, 0] (2 / 2))._delta_R :=
  ⟨demoState_isRotation, quarterTurn_isRotation, quarterTurn_square, demoNormalize_fixes,
    (one_step_vs_two_half_steps quarterTurnLib demoCfg demoState demoState_isRotation
      ![0, 0, 1] ![1, 0, 0] 2 quarterTurn_isRotation quarterTurn_square
      demoNormalize_fixes).2.1⟩

/-- C13, as stated, fails twice.  First, in exact arithmetic, when
`Expmap(omega·dt/2)` is not a rotation: with `mirrorLib` (a reflection at
`[0,0,1]`, its square the identity at `[0,0,2]`, a renormalisation fixing
rotations), the reset state, `omega = [0,0,1]`, `acc = [1,0,0]`, `dt = 2`, the
two runs have the same `deltaV` whereas the claimed difference is `[2,0,0]`.
Second, on the doubles the code computes: from elapsed time `0.3`, one update of
`0.1` and two updates of `0.05` give different elapsed times in binary64. -/
theorem one_step_vs_two_half_steps_counterexample :
    (IsRotation (reset demoState)._delta_R ∧ (0 : ℚ) < 2 ∧
      mirrorLib.Expmap ((2 : ℚ) • ![0, 0, 1])
        = mirrorLib.Expmap (((2 : ℚ) / 2) • ![0, 0, 1])
          * mirrorLib.Expmap (((2 : ℚ) / 2) • ![0, 0, 1]) ∧
      (∀ R : Mat33 ℚ, IsRotation R → mirrorLib.normalizeRotationM R = R) ∧
      (update mirrorLib demoCfg (reset demoState) ![0, 0, 1] ![1, 0, 0] 2)._delta_V
          - (update mirrorLib demoCfg
              (update mirrorLib demoCfg (reset demoState) ![0, 0, 1] ![1, 0, 0] (2 / 2))
              ![0, 0, 1] ![1, 0, 0] (2 / 2))._delta_V
        ≠ ((2 : ℚ) / 2) • (((reset demoState)._delta_R
            * (1 - mirrorLib.Expmap (((2 : ℚ) / 2) • ![0, 0, 1]))).mulVec ![1, 0, 0])) ∧
    (IsRotation runningState._delta_R ∧ (0 : ℚ) < fl 0.1 ∧
      plainLib.Expmap 0 = plainLib.Expmap 0 * plainLib.Expmap 0 ∧
      (∀ R : Mat33 ℚ, IsRotation R → plainLib.normalizeRotationM R = R) ∧
      (updateD plainLib demoCfg runningState 0 0 (fl 0.1))._delta_time
        ≠ (updateD plainLib demoCfg (updateD plainLib demoCfg runningState 0 0 (fl 0.1 / 2))
            0 0 (fl 0.1 / 2))._delta_time) := by
  refine ⟨⟨isRotation_one, by norm_num, ?_, fun R hR => if_pos hR, fun h => ?_⟩,
    ⟨isRotation_one, by decide!, ?_, fun R _ => rfl, by decide!⟩⟩
  · decide!
  · have h0 := congrFun h 0
    revert h0
    decide!
  · rw [plainLib_Expmap_zero, Matrix.one_mul]

/-- C18.  A zero-duration update is a no-op: if `Expmap 0 = I` and
`normalizeRotationM` fixes rotations, then for every state whose `deltaR` is a
rotation and every `(omega, acc)`, `update(omega, acc, 0)` leaves every member
(deltas, the five Jacobians, covariance, elapsed time) unchanged. -/
theorem zero_duration_noop (L : SO3Lib K) (cfg : Settings K) (hE : L.Expmap 0 = 1)
    (hN : ∀ R : Mat33 K, IsRotation R → L.normalizeRotationM R = R) (s : IMUPreintegrator K)
    (hs : IsRotation s._delta_R) (omega acc : Vec3 K) :
    update L cfg s omega acc 0 = s :=
  update_dt_zero L cfg hE hN s hs omega acc

/-- A zero-duration update of an object in use. -/
theorem zero_duration_noop_witness :
    demoLib.Expmap 0 = 1 ∧ (∀ R : Mat33 ℚ, IsRotation R → demoLib.normalizeRotationM R = R) ∧
    IsRotation demoState._delta_R ∧
    update demoLib demoCfg demoState ![1, 2, 3] ![0, 0, 981 / 100] 0 = demoState :=
  ⟨demoLib_Expmap_zero, demoNormalize_fixes, demoState_isRotation,
    zero_duration_noop demoLib demoCfg demoLib_Expmap_zero demoNormalize_fixes demoState
      demoState_isRotation ![1, 2, 3] ![0, 0, 981 / 100]⟩

/-- C19.  With zero acceleration nothing translational accumulates: if
`skew 0 = 0`, then after any sequence of updates from the reset state with
`acc = 0` at every step and arbitrary `(omega, dt)`, `deltaP = 0`, `deltaV = 0`,
`J_P_biasGyro = 0`, `J_V_biasGyro = 0`, and the covariance blocks at `(0,6)`,
`(3,6)` and their transposes at `(6,0)`, `(6,3)` are zero. -/
theorem zero_acc_no_translation (L : SO3Lib K) (cfg : Settings K) (hS : L.skew 0 = 0)
    (s0 : IMUPreintegrator K) (us : List (Vec3 K × K)) :
    (updates L cfg (reset s0) (withAcc 0 us))._delta_P = 0 ∧
    (updates L cfg (reset s0) (withAcc 0 us))._delta_V = 0 ∧
    (updates L cfg (reset s0) (withAcc 0 us))._J_P_Biasg = 0 ∧
    (updates L cfg (reset s0) (withAcc 0 us))._J_V_Biasg = 0 ∧
    blockOf (updates L cfg (reset s0) (withAcc 0 us))._cov_P_V_Phi 0 2 = 0 ∧
    blockOf (updates L cfg (reset s0) (withAcc 0 us))._cov_P_V_Phi 1 2 = 0 ∧
    blockOf (updates L cfg (reset s0) (withAcc 0 us))._cov_P_V_Phi 2 0 = 0 ∧
    blockOf (updates L cfg (reset s0) (withAcc 0 us))._cov_P_V_Phi 2 1 = 0 :=
  updates_zeroAcc_inv L cfg hS us (reset s0) rfl rfl rfl rfl rfl rfl rfl rfl

/-- Two rotating steps without acceleration, evaluated with the rational stand-ins. -/
theorem zero_acc_no_translation_witness :
    demoLib.skew 0 = 0 ∧
    (updates demoLib demoCfg (reset demoState)
      (withAcc 0 [(![0, 0, 1], 1 / 10), (![1, 0, 0], 1 / 5)]))._delta_P = 0 ∧
    blockOf (updates demoLib demoCfg (reset demoState)
      (withAcc 0 [(![0, 0, 1], 1 / 10), (![1, 0, 0], 1 / 5)]))._cov_P_V_Phi 0 2 = 0 :=
  ⟨skewCross_zero,
    (zero_acc_no_translation demoLib demoCfg skewCross_zero demoState _).1,
    (zero_acc_no_translation demoLib demoCfg skewCross_zero demoState _).2.2.2.2.1⟩

end Properties

end dso
